import Mathlib

/-!
Verification of the `went` language front end (lexer, parser, evaluator).

This file gives a shallow embedding, in Lean, of the parts of the `went`
repository that the checked claims are about:

* the pull-based lexer of `lang/lexer/lexer.go` (token scanning, automatic
  semicolon insertion, bracket tracking, number scanning);
* the recursive-descent expression parser of `lang/parser.go`;
* the tree-walking evaluator of the `runtime` package (`VisitBinExpr`,
  `VisitUnExpr`, `checkFloatOperands`, literal values as produced by the
  `parser` package's `tokenToValue`);
* the runtime value library of `lang/wenttype.go` (`Equals`, `Sm`, `Gr`).

Modelling conventions, used throughout:

* Go runes are `Option Char` (`none` stands for the `eof = -1` sentinel);
  the input is a `List Char` and cursor positions count runes, which agrees
  with the byte-based Go cursor on every rune boundary relevant here.
* Go loops are embedded as fuel-indexed recursions that return `none` when
  the fuel runs out; a result `some r` means the Go loop terminates with
  result `r`.  All theorems about loop results are stated on `some` results,
  and the one claim about non-termination is proved for every fuel.
* Machine numerics: `float64` values are modelled exactly, as the inductive
  `GoFloat` (a rational for finite values, plus `posInf`, `negInf`, `nan`);
  finite arithmetic is exact rational arithmetic (IEEE rounding is not
  modelled; no claim depends on rounding), while the zero-divisor and
  comparison cases follow IEEE-754 exactly.  `int64` range checks use
  explicit `2^63` bounds on `Int`.
* `lang/lexer/lexer.go` contains unresolved git merge-conflict markers; the
  HEAD side of each conflicted hunk (single-quoted strings only, and the
  `skipNewlines` case list without TRUE/FALSE) is the side embedded here.
-/

set_option linter.unusedVariables false

namespace Went

/-! ## Token model (`lang/token/token.go`) -/

/-- Token types, from the `Type` constant block of `lang/token/token.go`.
`ILLEGAL` is referenced by `lang/lexer/lexer.go` but absent from the revision
of `token.go` in the tree; it is added here as its own tag. -/
inductive TokenType where
  | ERROR
  | EOF
  | DOT
  | COLON
  | SEMICOLON
  | COMMA
  | LROUND
  | LCURLY
  | LSQUARE
  | RROUND
  | RCURLY
  | RSQUARE
  | NAME
  | INT
  | FLOAT
  | STR
  | PLUS
  | MINUS
  | DIV
  | MULT
  | MOD
  | ASSIGN
  | PLUSASSIGN
  | MINUSASSIGN
  | DIVASSIGN
  | MULTASSIGN
  | MODASSIGN
  | EQ
  | NEQ
  | GR
  | SM
  | GREQ
  | SMEQ
  | LOGICALNOT
  | LOGICALOR
  | LOGICALAND
  | FUNC
  | IF
  | ELSE
  | ELIF
  | FOR
  | NULL
  | FALSE
  | TRUE
  | WHILE
  | RETURN
  | IN
  | BREAK
  | CONT
  | VAR
  | ILLEGAL
  deriving DecidableEq, Repr

/-- A lexical token: type, source text and the (line, col) position recorded
by `nextToken` (`token.Token` with `Pos` decomposed into line and column). -/
structure Token where
  typ : TokenType
  value : String
  line : Nat
  col : Nat
  deriving DecidableEq, Repr

/-- The keyword table built by `token.go`'s `init` from the names between
`keywordBegin` and `keywordEnd`. -/
def keywordLookup (w : String) : TokenType :=
  if w = "func" then .FUNC
  else if w = "if" then .IF
  else if w = "else" then .ELSE
  else if w = "elif" then .ELIF
  else if w = "for" then .FOR
  else if w = "null" then .NULL
  else if w = "false" then .FALSE
  else if w = "true" then .TRUE
  else if w = "while" then .WHILE
  else if w = "return" then .RETURN
  else if w = "in" then .IN
  else if w = "break" then .BREAK
  else if w = "continue" then .CONT
  else if w = "var" then .VAR
  else .ERROR

/-- `keywordBegin+1 <= Keywords[word] && Keywords[word] < keywordEnd`:
true exactly for the keyword tags (a missing map entry yields the zero value
`ERROR`, which is outside the keyword range). -/
def TokenType.isKeywordTag : TokenType → Bool
  | .FUNC | .IF | .ELSE | .ELIF | .FOR | .NULL | .FALSE | .TRUE
  | .WHILE | .RETURN | .IN | .BREAK | .CONT | .VAR => true
  | _ => false

/-! ## Lexer state (`lang/lexer/lexer.go`) -/

/-- The messages passed to the lexer's injected error handler, one tag per
`errorf` call site in `lang/lexer/lexer.go`, with the formatted argument. -/
inductive LexMsg where
  | unclosedLeftBracket (r : Char)
  | unexpectedRightBracket (r : Char)
  | unexpectedToken (r : Char)
  | illegalCharacter (r : Char)
  | unterminatedQuotedString
  | unterminatedRawString
  | illegalHexNumber (text : String)
  | illegalOctalNumber (text : String)
  | illegalTrailingDecimalPoint
  | illegalFloatExponent (text : String)
  deriving DecidableEq, Repr

/-- A recorded call to the error handler `eh(name, pos, msg)`. -/
structure LexErr where
  msg : LexMsg
  line : Nat
  col : Nat
  deriving DecidableEq, Repr

/-- The `Lexer` struct of `lang/lexer/lexer.go`.  `errors` materialises the
calls made to the injected handler `eh`; `errorCount` is the `ErrorCount`
field (incremented on every `errorf`). -/
structure Lexer where
  input : List Char
  errorCount : Nat
  errors : List LexErr
  line : Nat
  col : Nat
  prevCol : Nat
  start : Nat
  pos : Nat
  runeWidth : Nat
  prevTokTyp : TokenType
  bracketStack : List Char
  deriving DecidableEq, Repr

/-- `New(name, input, eh)`: line starts at 1, col and prevCol at 0, all
cursor state at zero; `prevTokTyp` is the Go zero value `ERROR`. -/
def mkLexer (input : String) : Lexer :=
  { input := input.toList, errorCount := 0, errors := [], line := 1, col := 0,
    prevCol := 0, start := 0, pos := 0, runeWidth := 0, prevTokTyp := .ERROR,
    bracketStack := [] }

namespace Lexer

/-- The rune returned by `next()` (`none` is the `eof` sentinel). -/
def nextRune (l : Lexer) : Option Char :=
  if l.pos ≥ l.input.length then none else some (l.input.getD l.pos 'x')

/-- The state update performed by `next()`: record the rune width, advance
the cursor, and track line/column (a newline bumps the line and resets the
column to 1 without saving `prevCol`). -/
def nextState (l : Lexer) : Lexer :=
  if l.pos ≥ l.input.length then { l with runeWidth := 0 }
  else
    let c := l.input.getD l.pos 'x'
    let l := { l with runeWidth := 1, pos := l.pos + 1 }
    if c = '\n' then { l with line := l.line + 1, col := 1 }
    else { l with prevCol := l.col, col := l.col + 1 }

/-- `peek()`: the next rune without consuming it. -/
def peekRune (l : Lexer) : Option Char :=
  if l.pos ≥ l.input.length then none else some (l.input.getD l.pos 'x')

/-- `backup()`: step back one rune (one call per `next()`), restoring the
column from `prevCol` and un-counting a backed-over newline. -/
def backup (l : Lexer) : Lexer :=
  let l := { l with pos := l.pos - l.runeWidth, col := l.prevCol }
  if l.runeWidth = 1 ∧ l.input.getD l.pos 'x' = '\n' then
    { l with line := l.line - 1 }
  else l

/-- `ignore()`: skip the pending input before this point. -/
def ignore (l : Lexer) : Lexer := { l with start := l.pos }

/-- The pending text `l.Input[l.start:l.pos]`. -/
def pendingText (l : Lexer) : String :=
  String.mk ((l.input.drop l.start).take (l.pos - l.start))

/-- `nextToken(typ)`: emit the pending text as a token at the current
(line, col), reset `start`, and remember the emitted type for ASI. -/
def nextToken (l : Lexer) (typ : TokenType) : Lexer × Token :=
  ({ l with start := l.pos, prevTokTyp := typ },
   { typ := typ, value := l.pendingText, line := l.line, col := l.col })

/-- `errorf`: report to the handler and bump `ErrorCount`. -/
def errorf (l : Lexer) (m : LexMsg) : Lexer :=
  { l with errors := l.errors ++ [{ msg := m, line := l.line, col := l.col }],
           errorCount := l.errorCount + 1 }

/-- `accept(valid)`: consume the next rune when it is in `valid`, else back
up (the `eof` rune is never in `valid`). -/
def accept (l : Lexer) (valid : List Char) : Lexer × Bool :=
  match l.nextRune with
  | some c => if c ∈ valid then (l.nextState, true) else (l.nextState.backup, false)
  | none => (l.nextState.backup, false)

end Lexer

/-- `isSpace`: space, tab and carriage return (not newline). -/
def isSpace : Option Char → Bool
  | some c => c = ' ' ∨ c = '\t' ∨ c = '\r'
  | none => false

/-- `isLetter`: ASCII letters and underscore.  The Go source additionally
admits non-ASCII `unicode.IsLetter` runes; no claim involves non-ASCII
input, so that stdlib table is not reproduced. -/
def isLetter : Option Char → Bool
  | some c => ('a' ≤ c ∧ c ≤ 'z') ∨ ('A' ≤ c ∧ c ≤ 'Z') ∨ c = '_'
  | none => false

/-- `isDigit`: ASCII digits (the non-ASCII `unicode.IsDigit` clause is not
reproduced, as for `isLetter`). -/
def isDigit : Option Char → Bool
  | some c => '0' ≤ c ∧ c ≤ '9'
  | none => false

/-- `digitValue`: value of a digit rune in bases up to 16; 16 (larger than
any legal digit) otherwise — also for the `eof` sentinel. -/
def digitValue : Option Char → Nat
  | some c =>
    if '0' ≤ c ∧ c ≤ '9' then c.toNat - '0'.toNat
    else if 'a' ≤ c ∧ c ≤ 'f' then c.toNat - 'a'.toNat + 10
    else if 'A' ≤ c ∧ c ≤ 'F' then c.toNat - 'A'.toNat + 10
    else 16
  | none => 16

namespace Lexer

/-- `skipWhitespace`: absorb a run of spaces, then back up and ignore. -/
def skipWhitespaceF : Nat → Lexer → Option Lexer
  | 0, _ => none
  | fuel + 1, l =>
    let r := l.nextRune
    let l := l.nextState
    if isSpace r then skipWhitespaceF fuel l
    else some l.backup.ignore

/-- The newline-absorbing loop of `skipNewlines` together with its trailing
`prevTokTyp` switch; returns the updated lexer and the `insertSemicolon`
flag (HEAD side of the conflicted hunk: TRUE/FALSE are not in the list). -/
def skipNewlinesF : Nat → Lexer → Option (Lexer × Bool)
  | 0, _ => none
  | fuel + 1, l =>
    match l.peekRune with
    | some c =>
      if c = '\n' then skipNewlinesF fuel l.ignore.nextState
      else
        match l.prevTokTyp with
        | .NAME | .STR | .INT | .FLOAT | .BREAK | .CONT | .RETURN
        | .RROUND | .RSQUARE | .RCURLY => some (l, true)
        | _ => some (l.ignore, false)
    | none =>
      match l.prevTokTyp with
      | .NAME | .STR | .INT | .FLOAT | .BREAK | .CONT | .RETURN
      | .RROUND | .RSQUARE | .RCURLY => some (l, true)
      | _ => some (l.ignore, false)

/-- `scanSignificand(base)`: absorb digits of the base, then back up. -/
def scanSignificandF : Nat → Nat → Lexer → Option Lexer
  | 0, _, _ => none
  | fuel + 1, base, l =>
    let r := l.nextRune
    let l := l.nextState
    if digitValue r < base then scanSignificandF fuel base l
    else some l.backup

/-- The identifier-absorbing loop of `lexIdentifier`. -/
def lexIdentifierLoopF : Nat → Lexer → Option Lexer
  | 0, _ => none
  | fuel + 1, l =>
    let r := l.nextRune
    let l := l.nextState
    if isLetter r ∨ isDigit r then lexIdentifierLoopF fuel l
    else some l.backup

/-- `lexIdentifier`: absorb the word, look it up in the keyword table and
emit `NAME` or the keyword tag. -/
def lexIdentifierF (fuel : Nat) (l : Lexer) : Option (Lexer × Token) := do
  let l ← lexIdentifierLoopF fuel l
  let word := l.pendingText
  let k := keywordLookup word
  let typ := if k.isKeywordTag then k else TokenType.NAME
  some (l.nextToken typ)

/-- `skipSingleLineComment`: discard to end of line (or input), then ignore. -/
def skipSingleLineCommentF : Nat → Lexer → Option Lexer
  | 0, _ => none
  | fuel + 1, l =>
    let r := l.nextRune
    let l := l.nextState
    if r = some '\n' ∨ r = none then some l.ignore
    else skipSingleLineCommentF fuel l

/-- The sliding-pair loop of `skipMultilineComment` (the opening marker has
already been consumed); `left`/`right` hold the two most recent runes. -/
def skipMultilineCommentLoopF : Nat → Option Char → Lexer → Option Lexer
  | 0, _, _ => none
  | fuel + 1, right, l =>
    let left := right
    let right := l.nextRune
    let l := l.nextState
    if left = some '*' ∧ right = some '/' then some l
    else if left = none ∨ right = none then some l
    else skipMultilineCommentLoopF fuel right l

/-- `skipMultilineComment`: prime the pair with one rune, run the loop, and
ignore the comment text. -/
def skipMultilineCommentF (fuel : Nat) (l : Lexer) : Option Lexer := do
  let right := l.nextRune
  let l := l.nextState
  let l ← skipMultilineCommentLoopF fuel right l
  some l.ignore

/-- The scanning loop of `lexQuotedString` (HEAD side: single quotes only).
A backslash escapes the following rune, erroring at newline or `eof`; the
loop exits only at an unescaped closing quote — there is no `eof` case, so
an unterminated quoted string never leaves this loop (claim C10). -/
def lexQuotedStringLoopF : Nat → Lexer → Option Lexer
  | 0, _ => none
  | fuel + 1, l =>
    let r := l.nextRune
    let l := l.nextState
    if r = some '\x5c' then
      let r2 := l.nextRune
      let l := l.nextState
      let l := if r2 = some '\n' ∨ r2 = none then l.errorf .unterminatedQuotedString else l
      lexQuotedStringLoopF fuel l
    else if r = some '\x27' then some l.backup
    else lexQuotedStringLoopF fuel l

/-- `lexQuotedString`: ignore the opening quote, run the loop, emit `STR`,
then consume and ignore the closing quote. -/
def lexQuotedStringF (fuel : Nat) (l : Lexer) : Option (Lexer × Token) := do
  let l ← lexQuotedStringLoopF fuel l.ignore
  let (l, tkn) := l.nextToken .STR
  some (l.nextState.ignore, tkn)

/-- The scanning loop of `lexRawString`: at `eof` it restores the opening
quote's position and reports the error, but does not leave the loop (claim
C10); it exits only at a closing backtick. -/
def lexRawStringLoopF (startLine startCol : Nat) : Nat → Lexer → Option Lexer
  | 0, _ => none
  | fuel + 1, l =>
    let r := l.nextRune
    let l := l.nextState
    if r = none then
      let l := { l with line := startLine, col := startCol }
      lexRawStringLoopF startLine startCol fuel (l.errorf .unterminatedRawString)
    else if r = some '\x60' then some l.backup
    else lexRawStringLoopF startLine startCol fuel l

/-- `lexRawString`: ignore the opening quote, remember its position, run the
loop, emit `STR`, then consume and ignore the closing quote. -/
def lexRawStringF (fuel : Nat) (l : Lexer) : Option (Lexer × Token) := do
  let l := l.ignore
  let l ← lexRawStringLoopF l.line l.col fuel l
  let (l, tkn) := l.nextToken .STR
  some (l.nextState.ignore, tkn)

/-- The code after the `FRACTION` label of `lexNumber`: an optional fraction
(erroring on a trailing decimal point), then an optional exponent (erroring
on missing digits), then emit. -/
def lexNumberFractionF (fuel : Nat) (emitTyp : TokenType) (l : Lexer) :
    Option (Lexer × Token) := do
  let (l, emitTyp) ←
    match l.accept ['.'] with
    | (l, true) =>
      let l :=
        if isDigit l.peekRune then l
        else l.errorf .illegalTrailingDecimalPoint
      let l ← scanSignificandF fuel 10 l
      some (l, TokenType.FLOAT)
    | (l, false) => some (l, emitTyp)
  let (l, emitTyp) ←
    match l.accept ['e', 'E'] with
    | (l, true) =>
      let (l, _) := l.accept ['+', '-']
      if digitValue l.peekRune < 10 then do
        let l ← scanSignificandF fuel 10 l
        some (l, TokenType.FLOAT)
      else
        some (l.errorf (.illegalFloatExponent l.pendingText), TokenType.FLOAT)
    | (l, false) => some (l, emitTyp)
  some (l.nextToken emitTyp)

/-- The code of `lexNumber`'s octal branch after its `scanSignificand(8)`
call: the `accept("89")` check with its unconditional "illegal octal
number" report, then the float fall-through peek (`.`/`e`/`E`), else an
`INT` token. -/
def lexNumberOctalTailF (fuel : Nat) (l : Lexer) : Option (Lexer × Token) := do
  let l ←
    match l.accept ['8', '9'] with
    | (l, true) => do
      let l ← scanSignificandF fuel 10 l
      some (l.errorf (.illegalOctalNumber l.pendingText))
    | (l, false) => some l
  if l.peekRune = some '.' ∨ l.peekRune = some 'e' ∨ l.peekRune = some 'E' then
    lexNumberFractionF fuel .INT l
  else some (l.nextToken .INT)

/-- `lexNumber`: back up to the first rune of the number, then scan a
decimal, hexadecimal or octal significand with float fall-through, exactly
as in `lang/lexer/lexer.go`. -/
def lexNumberF (fuel : Nat) (l : Lexer) : Option (Lexer × Token) := do
  let l := l.backup
  if l.peekRune = some '.' then lexNumberFractionF fuel .INT l
  else
    match l.accept ['0'] with
    | (l, true) =>
      match l.accept ['x', 'X'] with
      | (l, true) => do
        let l ← scanSignificandF fuel 16 l
        let l :=
          if l.pos - l.start ≤ 2 then l.errorf (.illegalHexNumber l.pendingText)
          else l
        some (l.nextToken .INT)
      | (l, false) => do
        let l ← scanSignificandF fuel 8 l
        lexNumberOctalTailF fuel l
    | (l, false) => do
      let l ← scanSignificandF fuel 10 l
      lexNumberFractionF fuel .INT l

/-- `scan2(runeToScan, typ0, typ1)`: peek for a second rune, emitting the
two-character form when it matches. -/
def scan2 (l : Lexer) (runeToScan : Char) (typ0 typ1 : TokenType) :
    Lexer × Token :=
  if l.peekRune = some runeToScan then l.nextState.nextToken typ1
  else l.nextToken typ0

/-- The `r == eof` case of `Scan`: drain one unclosed bracket (reporting it)
if any remain, then emit `EOF`. -/
def scanEOFCase (l : Lexer) : Lexer × Token :=
  let l :=
    if l.bracketStack.isEmpty then l
    else
      let r := l.bracketStack.getLastD ' '
      Lexer.errorf { l with bracketStack := l.bracketStack.dropLast }
        (.unclosedLeftBracket r)
  l.nextToken .EOF

/-- The `r == '\n'` case of `Scan` up to the `goto`: run `skipNewlines` and
either emit the synthesized `SEMICOLON` or signal `none` (scan again). -/
def scanNewlineCaseF (fuel : Nat) (l : Lexer) :
    Option (Lexer × Option Token) := do
  let (l, insertSemicolon) ← skipNewlinesF fuel l
  if insertSemicolon then
    let (l, tkn) := l.nextToken .SEMICOLON
    some (l, some tkn)
  else some (l, none)

/-- The closing-bracket cases of `Scan` for `)` and `]`: check emptiness,
pop, check the popped opener, and emit the token in every case. -/
def scanRightBracketCase (l : Lexer) (r opener : Char) (typ : TokenType) :
    Lexer × Token :=
  if l.bracketStack.isEmpty then
    (l.errorf (.unexpectedRightBracket r)).nextToken typ
  else
    let toCheck := l.bracketStack.getLastD ' '
    let l := { l with bracketStack := l.bracketStack.dropLast }
    if toCheck ≠ opener then (l.errorf (.unexpectedRightBracket r)).nextToken typ
    else l.nextToken typ

/-- The `r == '}'` case of `Scan`: on a matched pop with the previous token
not a `SEMICOLON`, the function returns a `SEMICOLON` token (the `RCURLY`
for this brace is not emitted); otherwise it emits `RCURLY`. -/
def scanRCurlyCase (l : Lexer) : Lexer × Token :=
  if l.bracketStack.isEmpty then
    (l.errorf (.unexpectedRightBracket '\x7d')).nextToken .RCURLY
  else
    let toCheck := l.bracketStack.getLastD ' '
    let l := { l with bracketStack := l.bracketStack.dropLast }
    if toCheck ≠ '\x7b' then
      (l.errorf (.unexpectedRightBracket '\x7d')).nextToken .RCURLY
    else if l.prevTokTyp ≠ .SEMICOLON then l.nextToken .SEMICOLON
    else l.nextToken .RCURLY

/-- The `r == '|'` / `r == '&'` cases: a lone bar or ampersand reports an
error, but the second rune is consumed and the token emitted regardless. -/
def scanPairCase (l : Lexer) (r : Char) (typ : TokenType) : Lexer × Token :=
  let l := if l.peekRune ≠ some r then l.errorf (.unexpectedToken r) else l
  l.nextState.nextToken typ

/-- `Scan()`, fuel-indexed: each `goto ScanAgain` consumes one unit of fuel,
and the inner loops receive the current fuel as their own budget.  The case
order follows the `switch` in `lang/lexer/lexer.go` (HEAD side of the
conflicted hunks). -/
def ScanF : Nat → Lexer → Option (Lexer × Token)
  | 0, _ => none
  | fuel + 1, l => do
    let l ← skipWhitespaceF (fuel + 1) l
    let r := l.nextRune
    let l := l.nextState
    if isLetter r then lexIdentifierF (fuel + 1) l.backup
    else if isDigit r then lexNumberF (fuel + 1) l
    else
      match r with
      | none => some (scanEOFCase l)
      | some c =>
        if c = '\n' then do
          match ← scanNewlineCaseF (fuel + 1) l with
          | (l, some tkn) => some (l, tkn)
          | (l, none) => ScanF fuel l
        else if c = '\x27' then lexQuotedStringF (fuel + 1) l
        else if c = '\x60' then lexRawStringF (fuel + 1) l
        else if c = ':' then some (l.nextToken .COLON)
        else if c = '.' then
          if ¬ isDigit l.peekRune then some (l.nextToken .DOT)
          else lexNumberF (fuel + 1) l
        else if c = ',' then some (l.nextToken .COMMA)
        else if c = ';' then some (l.nextToken .SEMICOLON)
        else if c = '(' then
          some ({ l with bracketStack := l.bracketStack ++ ['('] }.nextToken .LROUND)
        else if c = ')' then some (scanRightBracketCase l ')' '(' .RROUND)
        else if c = '[' then
          some ({ l with bracketStack := l.bracketStack ++ ['['] }.nextToken .LSQUARE)
        else if c = ']' then some (scanRightBracketCase l ']' '[' .RSQUARE)
        else if c = '\x7b' then
          some ({ l with bracketStack := l.bracketStack ++ ['\x7b'] }.nextToken .LCURLY)
        else if c = '\x7d' then some (scanRCurlyCase l)
        else if c = '|' then some (scanPairCase l '|' .LOGICALOR)
        else if c = '&' then some (scanPairCase l '&' .LOGICALAND)
        else if c = '+' then some (l.scan2 '=' .PLUS .PLUSASSIGN)
        else if c = '-' then some (l.scan2 '=' .MINUS .MINUSASSIGN)
        else if c = '*' then some (l.scan2 '=' .MULT .MULTASSIGN)
        else if c = '%' then some (l.scan2 '=' .MOD .MODASSIGN)
        else if c = '=' then some (l.scan2 '=' .ASSIGN .EQ)
        else if c = '!' then some (l.scan2 '=' .LOGICALNOT .NEQ)
        else if c = '<' then some (l.scan2 '=' .SM .SMEQ)
        else if c = '>' then some (l.scan2 '=' .GR .GREQ)
        else if c = '/' then
          if l.peekRune = some '/' then do
            let l ← skipSingleLineCommentF (fuel + 1) l
            ScanF fuel l
          else if l.peekRune = some '*' then do
            let l ← skipMultilineCommentF (fuel + 1) l
            ScanF fuel l
          else some (l.scan2 '=' .DIV .DIVASSIGN)
        else some ((l.errorf (.illegalCharacter c)).nextToken .ILLEGAL)

end Lexer

/-- Call `Scan` repeatedly (at most `calls` times) until it returns an `EOF`
token, collecting the emitted tokens (the test files' `collect` loop). -/
def scanAllF (fuel : Nat) : Nat → Lexer → Option (List Token × Lexer)
  | 0, _ => none
  | calls + 1, l => do
    let (l, tkn) ← Lexer.ScanF fuel l
    if tkn.typ = .EOF then some ([tkn], l)
    else do
      let (tkns, l) ← scanAllF fuel calls l
      some (tkn :: tkns, l)

/-- Call `Scan` exactly `calls` times (whether or not `EOF` was returned),
collecting the tokens; used to observe post-EOF behaviour. -/
def scanTraceF (fuel : Nat) : Nat → Lexer → Option (List Token × Lexer)
  | 0, l => some ([], l)
  | calls + 1, l => do
    let (l, tkn) ← Lexer.ScanF fuel l
    let (tkns, l) ← scanTraceF fuel calls l
    some (tkn :: tkns, l)

/-- Token list of an input string: signature view (type and text only). -/
def lexSigs (input : String) : Option (List (TokenType × String)) :=
  (scanAllF (input.length + 2) (input.length + 2) (mkLexer input)).map
    (fun p => p.1.map (fun t => (t.typ, t.value)))

/-- The token kinds after which `skipNewlines` requests a synthesized
semicolon (rules 1-3 of its doc comment, HEAD side). -/
def asiTriggers : List TokenType :=
  [.NAME, .STR, .INT, .FLOAT, .BREAK, .CONT, .RETURN, .RROUND, .RSQUARE, .RCURLY]

/-- Whether a recorded handler call is an "illegal octal number" report. -/
def isOctalErr (e : LexErr) : Bool :=
  match e.msg with
  | .illegalOctalNumber _ => true
  | _ => false

/-- How many "illegal octal number" reports the lexer has made. -/
def octalErrCount (l : Lexer) : Nat := (l.errors.filter isOctalErr).length

/-- Overwrite the cursor bookkeeping (column, previous column, line, rune
width) that plays no role in which tokens and errors the lexer produces;
used to state loop post-conditions up to this bookkeeping. -/
def Lexer.setJunk (l : Lexer) (co pc li w : Nat) : Lexer :=
  { l with col := co, prevCol := pc, line := li, runeWidth := w }

/-- The octal digit runes. -/
def octalChars : List Char := ['0', '1', '2', '3', '4', '5', '6', '7']

/-- The decimal digit runes. -/
def decimalChars : List Char :=
  ['0', '1', '2', '3', '4', '5', '6', '7', '8', '9']

/-! ## Parser (`lang/parser.go` with the node constructors of
`lang/node.go`) -/

/-- Exact model of Go `float64` values: finite values are exact rationals
(IEEE rounding of finite arithmetic is not modelled — no claim depends on
it), with the infinities and NaN explicit so that the IEEE zero-divisor
and comparison behaviour is preserved. -/
inductive GoFloat where
  | finite (q : ℚ)
  | posInf
  | negInf
  | nan
  deriving DecidableEq, Repr

/-- Digits of `ds` read in the given base; `none` on a rune that is not a
digit of the base. -/
def goParseDigits (base : Nat) (ds : List Char) : Option Nat :=
  ds.foldl
    (fun acc c => do
      let a ← acc
      let v := digitValue (some c)
      if v < base then some (a * base + v) else none)
    (some 0)

/-- `strconv.ParseInt(text, 0, 64)` as this code base uses it: optional
sign, `0x`/`0X` hexadecimal, leading-`0` octal, else decimal, with the
signed 64-bit range check (the post-Go-1.13 `0b`/`0o`/underscore forms are
not modelled). -/
def goParseInt (s : String) : Option Int :=
  let cs := s.toList
  let (neg, cs) :=
    match cs with
    | '+' :: t => (false, t)
    | '-' :: t => (true, t)
    | _ => (false, cs)
  let mag : Option Nat :=
    match cs with
    | [] => none
    | '0' :: 'x' :: t => if t = [] then none else goParseDigits 16 t
    | '0' :: 'X' :: t => if t = [] then none else goParseDigits 16 t
    | '0' :: t => goParseDigits 8 t
    | t => goParseDigits 10 t
  match mag with
  | none => none
  | some m =>
    let v : Int := if neg then -(m : Int) else (m : Int)
    if -(2 ^ 63) ≤ v ∧ v < 2 ^ 63 then some v else none

/-- Value of a non-empty run of decimal digits; `none` on a non-digit or
an empty run. -/
def decDigitsVal (ds : List Char) : Option Nat :=
  match ds with
  | [] => none
  | _ => goParseDigits 10 ds

/-- `strconv.ParseFloat(text, 64)` for decimal literals, as an exact
rational (`Inf`/`NaN` spellings and hexadecimal floats are not modelled;
rounding to the nearest `float64` is not modelled). -/
def goParseFloat (s : String) : Option ℚ :=
  let cs := s.toList
  let (sign, cs) :=
    match cs with
    | '+' :: t => ((1 : ℚ), t)
    | '-' :: t => ((-1 : ℚ), t)
    | _ => ((1 : ℚ), cs)
  let mant := cs.takeWhile (fun c => c ≠ 'e' ∧ c ≠ 'E')
  let erest := cs.dropWhile (fun c => c ≠ 'e' ∧ c ≠ 'E')
  let intPart := mant.takeWhile (fun c => c ≠ '.')
  let dotrest := mant.dropWhile (fun c => c ≠ '.')
  let frac := match dotrest with | [] => [] | _ :: t => t
  let expVal : Option Int :=
    match erest with
    | [] => some 0
    | _ :: t =>
      let (esign, t) :=
        match t with
        | '+' :: u => ((1 : Int), u)
        | '-' :: u => ((-1 : Int), u)
        | _ => ((1 : Int), t)
      match decDigitsVal t with
      | some v => some (esign * v)
      | none => none
  if intPart = [] ∧ frac = [] then none
  else
    let ip : Option Nat := if intPart = [] then some 0 else decDigitsVal intPart
    let fp : Option Nat := if frac = [] then some 0 else decDigitsVal frac
    match ip, fp, expVal with
    | some ip, some fp, some e =>
      some (sign * ((ip : ℚ) + (fp : ℚ) / (10 : ℚ) ^ frac.length) * (10 : ℚ) ^ e)
    | _, _, _ => none

/-- AST expression nodes as built by `lang/parser.go`: `BinExpr`/`UnExpr`
(with the operator token), and the literal nodes of `lang/node.go`.  The
`numL` node carries the `Num` fields `IsInt`, `IsFloat`, `Int64`,
`Float64` and `Text`. -/
inductive Expr where
  | binE (op : Token) (left right : Expr)
  | unE (op : Token) (operand : Expr)
  | numL (isInt isFloat : Bool) (int64 : Int) (float64 : GoFloat)
      (text : String) (tkn : Token)
  | strL (value : String) (tkn : Token)
  | nullL (text : String) (tkn : Token)
  | boolL (value : Bool) (text : String) (tkn : Token)
  | listL (elements : List Expr) (tkn : Token)
  | idL (value : String) (tkn : Token)
  deriving Repr

/-- `newNumber(text, tkn)` from `lang/node.go`: integer extraction first
(promoting the float), else float extraction with the integer-overflow
rejection for float-parseable texts without `.`/`e`/`E`, and back-extraction
of an integer value when the float is integral and in 64-bit range. -/
def newNumber (text : String) (tkn : Token) : Except String Expr :=
  match goParseInt text with
  | some i => .ok (.numL true true i (.finite (i : ℚ)) text tkn)
  | none =>
    match goParseFloat text with
    | some f =>
      if ¬ (text.toList.any fun c => c = '.' ∨ c = 'e' ∨ c = 'E') then
        .error ("Integer overflow: " ++ text)
      else if f.den = 1 ∧ -(2 ^ 63) ≤ f.num ∧ f.num < 2 ^ 63 then
        .ok (.numL true true f.num (.finite f) text tkn)
      else .ok (.numL false true 0 (.finite f) text tkn)
    | none => .error ("illegal number syntax: " ++ text)

/-- `newBool(text, typ, tkn)` from `lang/node.go`. -/
def newBool (text : String) (typ : TokenType) (tkn : Token) :
    Except String Expr :=
  match typ with
  | .TRUE => .ok (.boolL true text tkn)
  | .FALSE => .ok (.boolL false text tkn)
  | _ => .error ("illegal bool syntax: " ++ text)

/-- The zero `token.Token` (what a receive from the tokeniser's closed
channel yields). -/
def zeroToken : Token := { typ := .ERROR, value := "", line := 0, col := 0 }

/-- Parser state: the lookahead buffer `p.tokens` (bottom of the stack
first), the not-yet-pulled remainder of the tokeniser's stream, and
`p.currentToken`. -/
structure PState where
  lookahead : List Token
  stream : List Token
  currentToken : Token
  deriving DecidableEq, Repr

def mkPState (ts : List Token) : PState :=
  { lookahead := [], stream := ts, currentToken := zeroToken }

/-- `p.next()`: take from the bottom of the lookahead stack, else pull
from the tokeniser. -/
def PState.next (p : PState) : Token × PState :=
  match p.lookahead with
  | t :: rest => (t, { p with lookahead := rest, currentToken := t })
  | [] =>
    match p.stream with
    | t :: rest => (t, { p with stream := rest, currentToken := t })
    | [] => (zeroToken, { p with currentToken := zeroToken })

/-- `p.peek()`: return the next token without consuming it, pulling one
into the lookahead buffer when it is empty. -/
def PState.peek (p : PState) : Token × PState :=
  match p.lookahead with
  | t :: _ => (t, p)
  | [] =>
    match p.stream with
    | t :: rest => (t, { p with lookahead := [t], stream := rest })
    | [] => (zeroToken, { p with lookahead := [zeroToken] })

/-- Result of a parsing function: `err` is the panic raised by the
parser's `errorf`/`unexpected` (recovered at `Parse`); `oom` marks fuel
exhaustion of the embedding and has no Go counterpart.  Error messages
are simplified renderings (position prefixes and token quoting are not
reproduced); no claim inspects them. -/
inductive PRes (α : Type) where
  | oom
  | err (msg : String)
  | ok (a : α) (p : PState)
  deriving DecidableEq, Repr

/-- The token types accepted by `atom`'s `expectRange` (`token.RAWSTR` of
the missing token-set revision is folded into `STR`, which is how the
lexers in the tree tag both string forms). -/
def atomTypes : List TokenType :=
  [.NAME, .INT, .FLOAT, .STR, .NULL, .FALSE, .TRUE, .LROUND, .LSQUARE]

mutual

/-- `orEval: andEval ("||" orEval)*` — the `||` level. -/
def orEvalF : Nat → PState → PRes Expr
  | 0, _ => .oom
  | fuel + 1, p =>
    match andEvalF fuel p with
    | .ok node p => orLoopF fuel node p
    | r => r

/-- The `for p.peek().Type == token.LOGICALOR` loop of `orEval`; the right
operand recurses into `andEval`, the next-tighter level. -/
def orLoopF : Nat → Expr → PState → PRes Expr
  | 0, _, _ => .oom
  | fuel + 1, node, p =>
    let (t, p) := p.peek
    if t.typ = .LOGICALOR then
      let (tkn, p) := p.next
      match andEvalF fuel p with
      | .ok r p => orLoopF fuel (.binE tkn node r) p
      | r => r
    else .ok node p

/-- `andEval: notEval ("&&" notEval)*` — the `&&` level. -/
def andEvalF : Nat → PState → PRes Expr
  | 0, _ => .oom
  | fuel + 1, p =>
    match notEvalF fuel p with
    | .ok node p => andLoopF fuel node p
    | r => r

/-- The `for p.peek().Type == token.LOGICALAND` loop of `andEval`.  NOTE:
as in the source (`newBinExpr(node, p.andEval(), tkn)`), the right operand
recurses into `andEval` itself — not into `notEval` as the function's own
grammar comment says. -/
def andLoopF : Nat → Expr → PState → PRes Expr
  | 0, _, _ => .oom
  | fuel + 1, node, p =>
    let (t, p) := p.peek
    if t.typ = .LOGICALAND then
      let (tkn, p) := p.next
      match andEvalF fuel p with
      | .ok r p => andLoopF fuel (.binE tkn node r) p
      | r => r
    else .ok node p

/-- `notEval: "!" notEval | comparison`. -/
def notEvalF : Nat → PState → PRes Expr
  | 0, _ => .oom
  | fuel + 1, p =>
    let (t, p') := p.peek
    match t.typ with
    | .LOGICALNOT =>
      let (tkn, p'') := p'.next
      match notEvalF fuel p'' with
      | .ok r q => .ok (.unE tkn r) q
      | r => r
    | _ => comparisonF fuel p'

/-- `comparison: smExpr (compOp smExpr)*`. -/
def comparisonF : Nat → PState → PRes Expr
  | 0, _ => .oom
  | fuel + 1, p =>
    match smExprF fuel p with
    | .ok node p => compLoopF fuel node p
    | r => r

def compLoopF : Nat → Expr → PState → PRes Expr
  | 0, _, _ => .oom
  | fuel + 1, node, p =>
    let (t, p) := p.peek
    match t.typ with
    | .EQ | .NEQ | .SM | .SMEQ | .GR | .GREQ | .IN =>
      let (tkn, p) := p.next
      match smExprF fuel p with
      | .ok r p => compLoopF fuel (.binE tkn node r) p
      | r => r
    | _ => .ok node p

/-- `smExpr: term (("+" | "-") term)*`. -/
def smExprF : Nat → PState → PRes Expr
  | 0, _ => .oom
  | fuel + 1, p =>
    match termF fuel p with
    | .ok node p => smLoopF fuel node p
    | r => r

def smLoopF : Nat → Expr → PState → PRes Expr
  | 0, _, _ => .oom
  | fuel + 1, node, p =>
    let (t, p) := p.peek
    match t.typ with
    | .PLUS | .MINUS =>
      let (tkn, p) := p.next
      match termF fuel p with
      | .ok r p => smLoopF fuel (.binE tkn node r) p
      | r => r
    | _ => .ok node p

/-- `term: factor (("*" | "/" | "%") factor)*`. -/
def termF : Nat → PState → PRes Expr
  | 0, _ => .oom
  | fuel + 1, p =>
    match factorF fuel p with
    | .ok node p => termLoopF fuel node p
    | r => r

def termLoopF : Nat → Expr → PState → PRes Expr
  | 0, _, _ => .oom
  | fuel + 1, node, p =>
    let (t, p) := p.peek
    match t.typ with
    | .MULT | .DIV | .MOD =>
      let (tkn, p) := p.next
      match factorF fuel p with
      | .ok r p => termLoopF fuel (.binE tkn node r) p
      | r => r
    | _ => .ok node p

/-- `factor: ("+" | "-") factor | atom` — unary sign recurses into the
same level (right associativity). -/
def factorF : Nat → PState → PRes Expr
  | 0, _ => .oom
  | fuel + 1, p =>
    let (t, p') := p.peek
    match t.typ with
    | .PLUS | .MINUS =>
      let (tkn, p'') := p'.next
      match factorF fuel p'' with
      | .ok r q => .ok (.unE tkn r) q
      | r => r
    | _ => atomF fuel p'

/-- `atom`: `expectRange("atom type check", ...)` then the literal /
grouping switch.  The source's `case token.NUM:` / `case token.RAWSTR,
token.STR:` reference a token-set revision that is absent from the tree;
modelled from the spec's grammar (`atom := NAME | INT | FLOAT | STRING |
RAWSTRING | ...`), the number case covers `INT`/`FLOAT` and the string
case covers `STR`. -/
def atomF : Nat → PState → PRes Expr
  | 0, _ => .oom
  | fuel + 1, p =>
    let (tkn, p) := p.next
    if tkn.typ ∈ atomTypes then
      match tkn.typ with
      | .NAME => .ok (.idL tkn.value tkn) p
      | .INT | .FLOAT =>
        match newNumber tkn.value tkn with
        | .ok n => .ok n p
        | .error e => .err e
      | .STR => .ok (.strL tkn.value tkn) p
      | .NULL => .ok (.nullL tkn.value tkn) p
      | .FALSE | .TRUE =>
        match newBool tkn.value tkn.typ tkn with
        | .ok n => .ok n p
        | .error e => .err e
      | .LROUND =>
        match orEvalF fuel p with
        | .ok n p =>
          let (t2, p) := p.next
          if t2.typ = .RROUND then .ok n p
          else .err ("unexpected " ++ t2.value ++ " in closing brackets, expected RROUND")
        | r => r
      | .LSQUARE =>
        match exprListF fuel p with
        | .ok elems p =>
          let (t2, p) := p.next
          if t2.typ = .RSQUARE then .ok (.listL elems tkn) p
          else .err ("unexpected " ++ t2.value ++ " in closing square brackets, expected RSQUARE")
        | .err e => .err e
        | .oom => .oom
      | _ => .err ("unexpected " ++ tkn.value ++ " in atom")
    else .err ("unexpected " ++ tkn.value ++ " in atom type check")

/-- `exprList: orEval ("," orEval)* [","]`. -/
def exprListF : Nat → PState → PRes (List Expr)
  | 0, _ => .oom
  | fuel + 1, p =>
    match orEvalF fuel p with
    | .ok e p => exprListLoopF fuel [e] p
    | .err e => .err e
    | .oom => .oom

def exprListLoopF : Nat → List Expr → PState → PRes (List Expr)
  | 0, _, _ => .oom
  | fuel + 1, acc, p =>
    let (t, p) := p.peek
    if t.typ = .COMMA then
      let (_, p) := p.next
      let (t2, p) := p.peek
      if t2.typ ≠ .RSQUARE then
        match orEvalF fuel p with
        | .ok e p => exprListLoopF fuel (acc ++ [e]) p
        | .err e => .err e
        | .oom => .oom
      else exprListLoopF fuel acc p
    else .ok acc p

end

/-- `Parser.parse`: `Root = orEval()`, an optional trailing semicolon,
then `expect("End of File", token.EOF)`. -/
def parseF : Nat → PState → PRes Expr
  | 0, _ => .oom
  | fuel + 1, p =>
    match orEvalF fuel p with
    | .ok root p =>
      let (t, p) := p.peek
      let p := if t.typ = .SEMICOLON then (p.next).2 else p
      let (t2, p) := p.next
      if t2.typ = .EOF then .ok root p
      else .err ("unexpected " ++ t2.value ++ " in End of File")
    | r => r

/-- The display strings of the token-type table (`tokenTypes` in
`lang/token/token.go`). -/
def TokenType.str : TokenType → String
  | .ERROR => "ERROR"
  | .EOF => "EOF"
  | .DOT => "DOT"
  | .COLON => ":"
  | .SEMICOLON => ";"
  | .COMMA => ","
  | .LROUND => "("
  | .LCURLY => "\x7b"
  | .LSQUARE => "["
  | .RROUND => ")"
  | .RCURLY => "\x7d"
  | .RSQUARE => "]"
  | .NAME => "NAME"
  | .INT => "INTEGER"
  | .FLOAT => "FLOAT"
  | .STR => "STRING"
  | .PLUS => "+"
  | .MINUS => "-"
  | .DIV => "/"
  | .MULT => "*"
  | .MOD => "%"
  | .ASSIGN => "="
  | .PLUSASSIGN => "+="
  | .MINUSASSIGN => "-="
  | .DIVASSIGN => "/="
  | .MULTASSIGN => "*="
  | .MODASSIGN => "%="
  | .EQ => "=="
  | .NEQ => "!="
  | .GR => ">"
  | .SM => "<"
  | .GREQ => ">="
  | .SMEQ => "<="
  | .LOGICALNOT => "!"
  | .LOGICALOR => "||"
  | .LOGICALAND => "&&"
  | .FUNC => "func"
  | .IF => "if"
  | .ELSE => "else"
  | .ELIF => "elif"
  | .FOR => "for"
  | .NULL => "null"
  | .FALSE => "false"
  | .TRUE => "true"
  | .WHILE => "while"
  | .RETURN => "return"
  | .IN => "in"
  | .BREAK => "break"
  | .CONT => "continue"
  | .VAR => "var"
  | .ILLEGAL => "ILLEGAL"

/-- Parenthesised rendering of an AST in the style of the repository's own
`ast` printer (`surroundBracket`): `(op left right)` for binary nodes,
`(op operand)` for unary nodes, literal text for leaves.  The depth bound
keeps the recursion structural; it is never reached on the inputs
considered.  The rendering determines the tree shape, the operators, and
the literal texts, which is what the parser claims are about. -/
def Expr.renderB : Nat → Expr → String
  | 0, _ => "?"
  | depth + 1, e =>
    match e with
    | .binE op left right =>
      "(" ++ op.typ.str ++ " " ++ left.renderB depth ++ " " ++
        right.renderB depth ++ ")"
    | .unE op operand => "(" ++ op.typ.str ++ " " ++ operand.renderB depth ++ ")"
    | .numL _ _ _ _ text _ => text
    | .strL v _ => "'" ++ v ++ "'"
    | .nullL t _ => t
    | .boolL _ t _ => t
    | .listL es _ =>
      "[" ++ String.intercalate " " (es.map (Expr.renderB depth)) ++ "]"
    | .idL v _ => v

/-- Tokens of an input string via the pull lexer. -/
def lexTokens (input : String) : Option (List Token) :=
  (scanAllF (input.length + 2) (input.length + 2) (mkLexer input)).map
    (fun p => p.1)

/-- Parse a token list and return the rendering of the resulting AST root
(`none` on a parse error or fuel exhaustion). -/
def parseRender (fuel : Nat) (ts : List Token) : Option String :=
  match parseF fuel (mkPState ts) with
  | .ok e _ => some (e.renderB fuel)
  | _ => none

/-! ## Runtime interpreter (`runtime` package: `VisitBinExpr`,
`VisitUnExpr`, `VisitBasicLit`, `VisitGrpExpr`, `checkFloatOperands`,
`isTruthy`, `isEqual`), with literal values as built by the `parser`
package's `tokenToValue`. -/

/-- Negation of a `float64`. -/
def GoFloat.neg : GoFloat → GoFloat
  | .finite q => .finite (-q)
  | .posInf => .negInf
  | .negInf => .posInf
  | .nan => .nan

/-- IEEE-754 addition on the modelled `float64` (finite sums exact). -/
def GoFloat.add : GoFloat → GoFloat → GoFloat
  | .nan, _ => .nan
  | _, .nan => .nan
  | .posInf, .negInf => .nan
  | .negInf, .posInf => .nan
  | .posInf, _ => .posInf
  | _, .posInf => .posInf
  | .negInf, _ => .negInf
  | _, .negInf => .negInf
  | .finite a, .finite b => .finite (a + b)

/-- IEEE-754 subtraction: `a - b = a + (-b)`. -/
def GoFloat.sub (a b : GoFloat) : GoFloat := a.add b.neg

/-- IEEE-754 multiplication (finite products exact; `inf * 0 = NaN`). -/
def GoFloat.mul : GoFloat → GoFloat → GoFloat
  | .nan, _ => .nan
  | _, .nan => .nan
  | .posInf, .posInf => .posInf
  | .posInf, .negInf => .negInf
  | .negInf, .posInf => .negInf
  | .negInf, .negInf => .posInf
  | .posInf, .finite q => if 0 < q then .posInf else if q < 0 then .negInf else .nan
  | .finite q, .posInf => if 0 < q then .posInf else if q < 0 then .negInf else .nan
  | .negInf, .finite q => if 0 < q then .negInf else if q < 0 then .posInf else .nan
  | .finite q, .negInf => if 0 < q then .negInf else if q < 0 then .posInf else .nan
  | .finite a, .finite b => .finite (a * b)

/-- IEEE-754 division (finite quotients exact): a nonzero finite value
divided by zero is a signed infinity, `0/0` is NaN — no error is ever
raised at this level. -/
def GoFloat.div : GoFloat → GoFloat → GoFloat
  | .nan, _ => .nan
  | _, .nan => .nan
  | .posInf, .posInf => .nan
  | .posInf, .negInf => .nan
  | .negInf, .posInf => .nan
  | .negInf, .negInf => .nan
  | .posInf, .finite q => if q < 0 then .negInf else .posInf
  | .negInf, .finite q => if q < 0 then .posInf else .negInf
  | .finite _, .posInf => .finite 0
  | .finite _, .negInf => .finite 0
  | .finite a, .finite b =>
    if b = 0 then
      if 0 < a then .posInf else if a < 0 then .negInf else .nan
    else .finite (a / b)

/-- IEEE-754 `==` (NaN compares unequal to everything). -/
def GoFloat.feq : GoFloat → GoFloat → Bool
  | .nan, _ => false
  | _, .nan => false
  | a, b => a = b

/-- IEEE-754 `<` (false whenever NaN is involved). -/
def GoFloat.flt : GoFloat → GoFloat → Bool
  | .nan, _ => false
  | _, .nan => false
  | .finite a, .finite b => a < b
  | .negInf, .negInf => false
  | .negInf, _ => true
  | _, .negInf => false
  | .posInf, _ => false
  | .finite _, .posInf => true

def GoFloat.fle (a b : GoFloat) : Bool := a.flt b || a.feq b

def GoFloat.fgt (a b : GoFloat) : Bool := b.flt a

def GoFloat.fge (a b : GoFloat) : Bool := b.fle a

/-- A runtime value of the `runtime` interpreter: the dynamic type of the
`interface\x7b\x7d` values it works with (`nil`, `bool`, `float64`,
`string`). -/
inductive GoVal where
  | vnil
  | vbool (b : Bool)
  | vnum (f : GoFloat)
  | vstr (s : String)
  deriving DecidableEq, Repr

/-- AST nodes of the `ast` package as used by the `parser` and `runtime`
packages (`BasicLit`, `GrpExpr`, `BinExpr`, `UnExpr`; field shapes from
their construction and visiting sites — the node type declarations
themselves are not in the tree). -/
inductive RExpr where
  | basicLit (value : GoVal) (tkn : Token)
  | grpE (leftRound : Token) (expression : RExpr) (rightRound : Token)
  | binE (left : RExpr) (op : Token) (right : RExpr)
  | unE (op : Token) (operand : RExpr)
  deriving Repr

/-- A `RuntimeError` (input name omitted): message and position. -/
structure RtErr where
  msg : String
  line : Nat
  col : Nat
  deriving DecidableEq, Repr

/-- `tokenToValue` from the `parser` package: booleans, `nil`, strings,
and — per its NOTE — both `INT` and `FLOAT` literals converted to
`float64`. -/
def tokenToValue (tkn : Token) : Option GoVal :=
  match tkn.typ with
  | .FALSE => some (.vbool false)
  | .TRUE => some (.vbool true)
  | .NULL => some .vnil
  | .INT => (goParseFloat tkn.value).map (fun q => .vnum (.finite q))
  | .FLOAT => (goParseFloat tkn.value).map (fun q => .vnum (.finite q))
  | .STR => some (.vstr tkn.value)
  | _ => none

/-- `isTruthy`: `nil` and `false` are falsy, everything else truthy. -/
def isTruthy : GoVal → Bool
  | .vnil => false
  | .vbool b => b
  | _ => true

/-- `isEqual`: Go `==` on the interface values (same dynamic type and
equal value; `float64` NaN is unequal to itself). -/
def isEqual : GoVal → GoVal → Bool
  | .vnil, .vnil => true
  | .vbool a, .vbool b => a = b
  | .vnum a, .vnum b => a.feq b
  | .vstr a, .vstr b => a = b
  | _, _ => false

/-- `checkFloatOperands` with one operand.  The messages reproduce the
`"operand%smust be %snumber%s"` format exactly (including its missing
space in the singular form and trailing space in the plural form). -/
def checkFloat1 (op : Token) (v : GoVal) : Except RtErr GoFloat :=
  match v with
  | .vnum f => .ok f
  | _ => .error { msg := "operandmust be a number", line := op.line, col := op.col }

/-- `checkFloatOperands` with two operands. -/
def checkFloat2 (op : Token) (a b : GoVal) : Except RtErr (GoFloat × GoFloat) :=
  match a with
  | .vnum fa =>
    match b with
    | .vnum fb => .ok (fa, fb)
    | _ => .error { msg := "operands must be numbers ", line := op.line, col := op.col }
  | _ => .error { msg := "operands must be numbers ", line := op.line, col := op.col }

/-- The `runtime` interpreter's `evaluate`/`Accept` dispatch: `VisitBasicLit`,
`VisitGrpExpr`, `VisitUnExpr` and `VisitBinExpr`.  The `Except.error`
results are the panics raised after `errorf` (recovered in `Run`).  Note
that `VisitBinExpr` evaluates BOTH operands before inspecting the
operator, and that its switch has no `LOGICALAND`/`LOGICALOR`/`MOD` cases
(those fall through to the trailing `return nil`). -/
def ivisit : RExpr → Except RtErr GoVal
  | .basicLit v _ => .ok v
  | .grpE _ e _ => ivisit e
  | .unE op operand => do
    let v ← ivisit operand
    match op.typ with
    | .MINUS => do
      let f ← checkFloat1 op v
      .ok (.vnum f.neg)
    | .PLUS => do
      let f ← checkFloat1 op v
      .ok (.vnum f)
    | .LOGICALNOT => .ok (.vbool (! isTruthy v))
    | _ => .ok .vnil
  | .binE left op right => do
    let lv ← ivisit left
    let rv ← ivisit right
    match op.typ with
    | .PLUS =>
      match lv, rv with
      | .vnum a, .vnum b => .ok (.vnum (a.add b))
      | .vstr a, .vstr b => .ok (.vstr (a ++ b))
      | _, _ =>
        .error { msg := "operands must be two numbers or two strings", line := op.line, col := op.col }
    | .MINUS | .DIV | .MULT | .GR | .GREQ | .SM | .SMEQ => do
      let (a, b) ← checkFloat2 op lv rv
      match op.typ with
      | .MINUS => .ok (.vnum (a.sub b))
      | .DIV => .ok (.vnum (a.div b))
      | .MULT => .ok (.vnum (a.mul b))
      | .GR => .ok (.vbool (a.fgt b))
      | .GREQ => .ok (.vbool (a.fge b))
      | .SM => .ok (.vbool (a.flt b))
      | .SMEQ => .ok (.vbool (a.fle b))
      | _ => .ok .vnil
    | .EQ => .ok (.vbool (isEqual lv rv))
    | .NEQ => .ok (.vbool (! isEqual lv rv))
    | _ => .ok .vnil

/-! ## Runtime value library (`lang/wenttype.go`) -/

/-- The error built by `opError(w1, w2, compString)`: the two concrete Go
type names and the operator string. -/
structure OpErr where
  t1 : String
  t2 : String
  op : String
  deriving DecidableEq, Repr

/-- The `went` value types of `lang/wenttype.go`.  `WNum` is a `float64`
in Go; its payload is modelled as an exact rational (claim C9 does not
depend on the payload's ordering).  `Wmap` is modelled as an association
list with distinct keys. -/
inductive WType where
  | wnull
  | wnum (v : ℚ)
  | wstring (s : String)
  | wbool (b : Bool)
  | wlist (elems : List WType)
  | wmap (entries : List (String × WType))

/-- The `%T` name of a value's concrete Go type. -/
def typeName : WType → String
  | .wnull => "lang.WNull"
  | .wnum _ => "lang.WNum"
  | .wstring _ => "lang.WString"
  | .wbool _ => "lang.WBool"
  | .wlist _ => "lang.WList"
  | .wmap _ => "lang.Wmap"

def opError (w1 w2 : WType) (compString : String) : OpErr :=
  { t1 := typeName w1, t2 := typeName w2, op := compString }

/-- The `<` / `<=` operator string chosen from `orEq`. -/
def smOp (orEq : Bool) : String := if orEq then "<=" else "<"

/-- The `>` / `>=` operator string chosen from `orEq`. -/
def grOp (orEq : Bool) : String := if orEq then ">=" else ">"

/-- `map2[k1]` on the modelled map: first entry with the key. -/
def lookupW : List (String × WType) → String → Option WType
  | [], _ => none
  | (k, v) :: rest, key => if k = key then some v else lookupW rest key

mutual

/-- `Equals`, dispatched over the receiver's variant as in
`lang/wenttype.go`: type assertion on the argument, then structural
comparison (elementwise for lists, key-lookup based for maps; a missing
key yields the nil interface, whose assertion fails). -/
def wEquals : WType → WType → Bool
  | .wnull, w2 =>
    match w2 with
    | .wnull => true
    | _ => false
  | .wnum v, w2 =>
    match w2 with
    | .wnum v2 => v == v2
    | _ => false
  | .wstring s, w2 =>
    match w2 with
    | .wstring s2 => s == s2
    | _ => false
  | .wbool b, w2 =>
    match w2 with
    | .wbool b2 => b == b2
    | _ => false
  | .wlist xs, w2 =>
    match w2 with
    | .wlist ys => if xs.length ≠ ys.length then false else wEqElems xs ys
    | _ => false
  | .wmap m, w2 =>
    match w2 with
    | .wmap m2 => if m.length ≠ m2.length then false else wEqEntries m m2
    | _ => false

/-- The index loop of `WList.Equals` (run under equal lengths). -/
def wEqElems : List WType → List WType → Bool
  | [], _ => true
  | _ :: _, [] => true
  | x :: xs, y :: ys => wEquals x y && wEqElems xs ys

/-- The range loop of `Wmap.Equals` (run under equal lengths). -/
def wEqEntries : List (String × WType) → List (String × WType) → Bool
  | [], _ => true
  | (k, v) :: rest, m2 =>
    (match lookupW m2 k with
     | some v2 => wEquals v v2
     | none => false) && wEqEntries rest m2

end

mutual

/-- `Sm`, dispatched over the receiver's variant as in `lang/wenttype.go`:
numbers and strings compare when the argument has the same variant; lists
compare lexicographically (first unequal element, then length); null,
bool and map always error. -/
def wSm : WType → WType → Bool → Except OpErr Bool
  | .wnull, w2, orEq => .error (opError .wnull w2 (smOp orEq))
  | .wnum v, w2, orEq =>
    match w2 with
    | .wnum v2 => .ok (if orEq then decide (v ≤ v2) else decide (v < v2))
    | _ => .error (opError (.wnum v) w2 (smOp orEq))
  | .wstring s, w2, orEq =>
    match w2 with
    | .wstring s2 => .ok (if orEq then decide (s ≤ s2) else decide (s < s2))
    | _ => .error (opError (.wstring s) w2 (smOp orEq))
  | .wbool b, w2, orEq => .error (opError (.wbool b) w2 (smOp orEq))
  | .wlist xs, w2, orEq =>
    match w2 with
    | .wlist ys => wSmList xs ys orEq xs.length ys.length
    | _ => .error (opError (.wlist xs) w2 (smOp orEq))
  | .wmap m, w2, orEq => .error (opError (.wmap m) w2 (smOp orEq))

/-- The `minLen` loop of `WList.Sm`, followed by the length comparison:
`lx`/`ly` carry the original lengths. -/
def wSmList : List WType → List WType → Bool → Nat → Nat → Except OpErr Bool
  | x :: xs, y :: ys, orEq, lx, ly =>
    if wEquals x y then wSmList xs ys orEq lx ly else wSm x y orEq
  | _, _, orEq, lx, ly => .ok (if orEq then decide (lx ≤ ly) else decide (lx < ly))

end

/-- The shared body of every variant's `Gr` method: call `Sm` with the
negated flag; on error rebuild the error with the `>`/`>=` operator, else
negate the result. -/
def grImpl (w w2 : WType) (orEq : Bool) : Except OpErr Bool :=
  match wSm w w2 (!orEq) with
  | .error _ => .error (opError w w2 (grOp orEq))
  | .ok smRes => .ok (!smRes)

/-- `Gr`, dispatched over the receiver's variant: each of the six methods
in `lang/wenttype.go` has the same body, `grImpl`. -/
def wGr (w w2 : WType) (orEq : Bool) : Except OpErr Bool :=
  match w with
  | .wnull => grImpl .wnull w2 orEq
  | .wnum v => grImpl (.wnum v) w2 orEq
  | .wstring s => grImpl (.wstring s) w2 orEq
  | .wbool b => grImpl (.wbool b) w2 orEq
  | .wlist xs => grImpl (.wlist xs) w2 orEq
  | .wmap m => grImpl (.wmap m) w2 orEq

namespace Lexer

theorem ignore_prevTokTyp (l : Lexer) : l.ignore.prevTokTyp = l.prevTokTyp := rfl

theorem nextState_prevTokTyp (l : Lexer) :
    l.nextState.prevTokTyp = l.prevTokTyp := by
  unfold nextState
  split
  · rfl
  · dsimp only
    split <;> rfl

/-- The `insertSemicolon` flag computed by `skipNewlines` is determined by
the previous token type alone: it is set exactly for the `asiTriggers`. -/
theorem skipNewlinesF_flag :
    ∀ (fuel : Nat) (l : Lexer) (r : Lexer × Bool),
      skipNewlinesF fuel l = some r →
      (r.2 = true ↔ l.prevTokTyp ∈ asiTriggers) := by
  intro fuel
  induction fuel with
  | zero => intro l r h; simp [skipNewlinesF] at h
  | succ n ih =>
    intro l r h
    rw [skipNewlinesF] at h
    rcases hp : l.peekRune with _ | c
    · rw [hp] at h
      dsimp only at h
      revert h
      cases htyp : l.prevTokTyp <;>
        simp [asiTriggers, htyp] <;> rintro rfl <;> simp
    · rw [hp] at h
      dsimp only at h
      by_cases hc : c = '\n'
      · rw [if_pos hc] at h
        have := ih (l.ignore.nextState) r h
        rwa [nextState_prevTokTyp, ignore_prevTokTyp] at this
      · rw [if_neg hc] at h
        revert h
        cases htyp : l.prevTokTyp <;>
          simp [asiTriggers, htyp] <;> rintro rfl <;> simp

end Lexer

/-! ## Claim theorems -/

/-- C1.  Whenever `Scan`'s newline case (absorbing one or more consecutive
newlines via `skipNewlines`) completes, it emits a synthesized `SEMICOLON`
token if and only if the previously emitted token's kind is one of `NAME`,
`STR` (the kind used for both quoted and raw string literals), `INT`,
`FLOAT`, `BREAK`, `CONT`, `RETURN`, `RROUND`, `RSQUARE`, `RCURLY`; after
any other kind the newlines are discarded and no token is emitted.  In
particular `"x\n"` lexes to `[NAME(x), SEMICOLON, EOF]` and `"x+\n"` to
`[NAME(x), PLUS, EOF]`. -/
theorem went_C1 (fuel : Nat) (l l' : Lexer) (res : Option Token)
    (h : Lexer.scanNewlineCaseF fuel l = some (l', res)) :
    ((∃ t, res = some t ∧ t.typ = .SEMICOLON) ↔ l.prevTokTyp ∈ asiTriggers) ∧
    lexSigs "x\n" = some [(.NAME, "x"), (.SEMICOLON, "\n"), (.EOF, "")] ∧
    lexSigs "x+\n" = some [(.NAME, "x"), (.PLUS, "+"), (.EOF, "")] := by
  refine ⟨?_, by decide, by decide⟩
  unfold Lexer.scanNewlineCaseF at h
  rcases hsn : Lexer.skipNewlinesF fuel l with _ | ⟨l₀, b⟩ <;> rw [hsn] at h
  · simp at h
  · have hflag := Lexer.skipNewlinesF_flag fuel l (l₀, b) hsn
    dsimp only at hflag
    cases b with
    | true =>
      simp only [Option.bind_eq_bind, Option.some_bind, if_true,
        Option.some.injEq, Prod.mk.injEq] at h
      obtain ⟨-, h2⟩ := h
      constructor
      · intro _; exact hflag.mp rfl
      · intro _
        exact ⟨(l₀.nextToken .SEMICOLON).2, h2.symm, rfl⟩
    | false =>
      simp only [Option.bind_eq_bind, Option.some_bind, Bool.false_eq_true,
        if_false, Option.some.injEq, Prod.mk.injEq] at h
      obtain ⟨-, h2⟩ := h
      constructor
      · rintro ⟨t, ht, -⟩
        rw [← h2] at ht
        exact absurd ht (by simp)
      · intro hmem
        exact absurd (hflag.mpr hmem) (by simp)

/-- Witness for C1 at a concrete state: the empty input with the initial
`ERROR` previous-token type completes the newline case without emitting a
semicolon. -/
theorem went_C1_witness :
    ((∃ t, (none : Option Token) = some t ∧ t.typ = .SEMICOLON) ↔
      (mkLexer "").prevTokTyp ∈ asiTriggers) ∧
    lexSigs "x\n" = some [(.NAME, "x"), (.SEMICOLON, "\n"), (.EOF, "")] ∧
    lexSigs "x+\n" = some [(.NAME, "x"), (.PLUS, "+"), (.EOF, "")] :=
  went_C1 1 (mkLexer "") ((mkLexer "").ignore) none (by decide)

/-- C7, as the code actually behaves (refuting the claim): on the matched
closing brace of `"\x7bx\x7d"`, with the preceding token a `NAME` (not a
`SEMICOLON`), `Scan` returns a synthesized `SEMICOLON` token whose text is
the consumed `"\x7d"` — and the `RCURLY` token for that brace is never
emitted.  The claim (with the spec, the earlier channel lexer's
`lexRightBracket`, and the disabled test case in the lexer package's test
file, which all expect `SEMICOLON` followed by `RCURLY`) describes the
intended behaviour; the pull-based rewrite dropped the `RCURLY`. -/
theorem went_C7_code_behaviour :
    lexSigs "\x7bx\x7d" =
      some [(.LCURLY, "\x7b"), (.NAME, "x"), (.SEMICOLON, "\x7d"), (.EOF, "")] ∧
    (lexSigs "\x7bx\x7d").all (fun ts => ts.all (fun t => t.1 ≠ .RCURLY)) := by
  constructor
  · decide
  · decide

/-- C6's counterexample: on input `"(("` the third `Scan` call returns the
first `EOF` token with one "unclosed left bracket" error recorded, and the
fourth call — made after `Scan` has already returned `EOF` — again returns
an `EOF` token but pops the second unclosed bracket and increases the error
count from 1 to 2, contradicting "reports no further error ... regardless
of how many unclosed brackets remained". -/
theorem went_C6_counterexample :
    (scanTraceF 10 3 (mkLexer "((")).map
        (fun p => (p.1.map Token.typ, p.2.errorCount)) =
      some ([.LROUND, .LROUND, .EOF], 1) ∧
    (scanTraceF 10 4 (mkLexer "((")).map
        (fun p => (p.1.map Token.typ, p.2.errorCount)) =
      some ([.LROUND, .LROUND, .EOF, .EOF], 2) := by
  constructor
  · decide
  · decide

/-- C6, amended.  From any state at end of input (in particular, any state
in which `Scan` has just returned an `EOF` token), every further `Scan`
call returns an `EOF` token and stays at end of input; the error count does
not increase when the bracket stack is empty, while each call with a
non-empty stack pops exactly one remaining unclosed bracket and reports exactly
one more error — so errors stop as soon as the stack has drained. -/
theorem went_C6_amended (l : Lexer) (fuel : Nat)
    (hpos : l.pos = l.input.length) :
    ∃ l' t, Lexer.ScanF (fuel + 1) l = some (l', t) ∧ t.typ = .EOF ∧
      l'.input = l.input ∧ l'.pos = l'.input.length ∧
      l'.errorCount = l.errorCount + (if l.bracketStack = [] then 0 else 1) ∧
      l'.bracketStack = l.bracketStack.dropLast := by
  have hge : l.pos ≥ l.input.length := le_of_eq hpos.symm
  have hnr : l.nextRune = none := by simp [Lexer.nextRune, hge]
  have hns : l.nextState = { l with runeWidth := 0 } := by
    simp [Lexer.nextState, hge]
  have hsw : Lexer.skipWhitespaceF (fuel + 1) l =
      some ({ l with runeWidth := 0, col := l.prevCol, start := l.pos }) := by
    rw [Lexer.skipWhitespaceF, hnr, hns]
    simp [isSpace, Lexer.backup, Lexer.ignore]
  set l₁ : Lexer := { l with runeWidth := 0, col := l.prevCol, start := l.pos }
      with hl₁
  have hnr₁ : l₁.nextRune = none := by simp [Lexer.nextRune, hl₁, hge]
  have hns₁ : l₁.nextState = l₁ := by
    simp [Lexer.nextState, hl₁, hge]
  rw [Lexer.ScanF, hsw]
  simp only [Option.bind_eq_bind, Option.some_bind, ← hl₁, hnr₁, hns₁]
  simp only [show isLetter none = false from rfl,
    show isDigit none = false from rfl, Bool.false_eq_true, if_false]
  unfold Lexer.scanEOFCase
  by_cases hbs : l.bracketStack = []
  · have hbe : l₁.bracketStack.isEmpty = true := by simp [hl₁, hbs]
    simp only [hbe, if_true]
    refine ⟨_, _, rfl, rfl, rfl, ?_, ?_, ?_⟩
    · simp [Lexer.nextToken, hl₁, hpos]
    · simp [Lexer.nextToken, hl₁, hbs]
    · simp [Lexer.nextToken, hl₁, hbs]
  · have hbe : l₁.bracketStack.isEmpty = false := by
      simp [hl₁, List.isEmpty_iff, hbs]
    simp only [hbe, Bool.false_eq_true, if_false]
    refine ⟨_, _, rfl, rfl, rfl, ?_, ?_, ?_⟩
    · simp [Lexer.nextToken, Lexer.errorf, hl₁, hpos]
    · simp [Lexer.nextToken, Lexer.errorf, hl₁, hbs]
    · simp [Lexer.nextToken, Lexer.errorf, hl₁]

/-- C8's counterexample: lexing `"08.5"` — a leading-zero literal whose
octal-digit run is immediately followed (after the offending `8`) by a
decimal point — emits a `FLOAT` token as the claim says, but the "illegal
octal number" error IS still reported (error count 1), contradicting the
claim's "no error is reported" half. -/
theorem went_C8_counterexample :
    lexSigs "08.5" = some [(.FLOAT, "08.5"), (.EOF, "")] ∧
    (scanAllF 10 10 (mkLexer "08.5")).map
        (fun p => (p.2.errorCount, p.2.errors.map LexErr.msg)) =
      some (1, [.illegalOctalNumber "08"]) := by
  constructor
  · decide
  · decide

namespace Lexer

theorem nextState_input (l : Lexer) : l.nextState.input = l.input := by
  unfold nextState
  split
  · rfl
  · dsimp only
    split <;> rfl

theorem nextState_pos_lt (l : Lexer) (h : l.pos < l.input.length) :
    l.nextState.pos = l.pos + 1 := by
  unfold nextState
  rw [if_neg (not_le.mpr h)]
  dsimp only
  split <;> rfl

theorem nextState_pos_ge (l : Lexer) (h : l.pos ≥ l.input.length) :
    l.nextState.pos = l.pos := by
  unfold nextState
  rw [if_pos h]

theorem nextRune_lt (l : Lexer) (h : l.pos < l.input.length) :
    l.nextRune = some (l.input.getD l.pos 'x') := by
  unfold nextRune
  rw [if_neg (not_le.mpr h)]

theorem nextRune_ge (l : Lexer) (h : l.pos ≥ l.input.length) :
    l.nextRune = none := by
  unfold nextRune
  rw [if_pos h]

theorem drop_succ_sub (xs : List Char) (n : Nat) :
    ∀ c ∈ xs.drop (n + 1), c ∈ xs.drop n := by
  intro c hc
  have : xs.drop (n + 1) = (xs.drop n).drop 1 := by
    rw [List.drop_drop]
  rw [this] at hc
  exact List.drop_subset 1 (xs.drop n) hc

theorem getD_mem_drop (xs : List Char) (n : Nat) (h : n < xs.length) :
    xs.getD n 'x' ∈ xs.drop n := by
  rw [List.getD_eq_getElem xs 'x' h, List.drop_eq_getElem_cons h]
  exact List.mem_cons_self _ _

/-- The quoted-string loop can only exit at a quote or via the
backslash-escape case: on a tail containing neither, it never returns. -/
theorem lexQuotedStringLoopF_none :
    ∀ (fuel : Nat) (l : Lexer),
      (∀ c ∈ l.input.drop l.pos, ¬(c = '\x5c' ∨ c = '\x27')) →
      lexQuotedStringLoopF fuel l = none := by
  intro fuel
  induction fuel with
  | zero => intro l _; rfl
  | succ n ih =>
    intro l h
    rw [lexQuotedStringLoopF]
    by_cases hp : l.pos < l.input.length
    · have hnr := nextRune_lt l hp
      have hcmem := getD_mem_drop l.input l.pos hp
      have hc := h _ hcmem
      rw [hnr]
      rw [if_neg (by simp_all), if_neg (by simp_all)]
      apply ih
      rw [nextState_input, nextState_pos_lt l hp]
      intro c hcd
      exact h c (drop_succ_sub _ _ _ hcd)
    · have hnr := nextRune_ge l (le_of_not_lt hp)
      rw [hnr]
      rw [if_neg (by simp), if_neg (by simp)]
      apply ih
      rw [nextState_input, nextState_pos_ge l (le_of_not_lt hp)]
      exact h

/-- The raw-string loop can only exit at a closing backtick: at `eof` it
reports the error and keeps looping, so on a backtick-free tail it never
returns. -/
theorem lexRawStringLoopF_none :
    ∀ (fuel : Nat) (startLine startCol : Nat) (l : Lexer),
      (∀ c ∈ l.input.drop l.pos, c ≠ '\x60') →
      lexRawStringLoopF startLine startCol fuel l = none := by
  intro fuel
  induction fuel with
  | zero => intro _ _ l _; rfl
  | succ n ih =>
    intro sl sc l h
    rw [lexRawStringLoopF]
    by_cases hp : l.pos < l.input.length
    · have hnr := nextRune_lt l hp
      have hcmem := getD_mem_drop l.input l.pos hp
      have hc := h _ hcmem
      rw [hnr]
      rw [if_neg (by simp), if_neg (by simp_all)]
      apply ih
      rw [nextState_input, nextState_pos_lt l hp]
      intro c hcd
      exact h c (drop_succ_sub _ _ _ hcd)
    · have hnr := nextRune_ge l (le_of_not_lt hp)
      rw [hnr, if_pos rfl]
      apply ih
      have h1 : l.nextState.pos = l.pos := nextState_pos_ge l (le_of_not_lt hp)
      simp only [errorf, nextState_input, h1]
      exact h

end Lexer

namespace Lexer

theorem getD_append_len (pre : List Char) (c : Char) (rest : List Char) :
    (pre ++ c :: rest).getD pre.length 'x' = c := by
  induction pre with
  | nil => rfl
  | cons p ps ih => simpa using ih

theorem pos_lt_len_at (pre : List Char) (c : Char) (rest : List Char) :
    pre.length < (pre ++ c :: rest).length := by
  simp only [List.length_append, List.length_cons]
  omega

theorem nextRune_at (l : Lexer) (pre : List Char) (c : Char) (rest : List Char)
    (hin : l.input = pre ++ c :: rest) (hpos : l.pos = pre.length) :
    l.nextRune = some c := by
  unfold nextRune
  rw [hin, hpos, if_neg (not_le.mpr (pos_lt_len_at pre c rest)),
    getD_append_len]

theorem peekRune_at (l : Lexer) (pre : List Char) (c : Char) (rest : List Char)
    (hin : l.input = pre ++ c :: rest) (hpos : l.pos = pre.length) :
    l.peekRune = some c := by
  unfold peekRune
  rw [hin, hpos, if_neg (not_le.mpr (pos_lt_len_at pre c rest)),
    getD_append_len]

theorem peekRune_end (l : Lexer) (hpos : l.pos ≥ l.input.length) :
    l.peekRune = none := by
  unfold peekRune
  rw [if_pos hpos]

theorem nextState_at (l : Lexer) (pre : List Char) (c : Char) (rest : List Char)
    (hin : l.input = pre ++ c :: rest) (hpos : l.pos = pre.length) :
    ∃ co pc li, l.nextState = setJunk { l with pos := l.pos + 1 } co pc li 1 := by
  unfold nextState
  rw [if_neg (not_le.mpr (by rw [hin, hpos]; exact pos_lt_len_at pre c rest))]
  dsimp only
  split
  · exact ⟨_, _, _, rfl⟩
  · exact ⟨_, _, _, rfl⟩

theorem backup_after_next (l : Lexer) (pre : List Char) (c : Char)
    (rest : List Char) (hin : l.input = pre ++ c :: rest)
    (hpos : l.pos = pre.length + 1) (hw : l.runeWidth = 1) (hc : c ≠ '\n') :
    l.backup = setJunk { l with pos := pre.length } l.prevCol l.prevCol l.line 1 := by
  unfold backup
  rw [hw, hpos]
  dsimp only
  rw [if_neg]
  · rfl
  · rintro ⟨-, h2⟩
    rw [hin, Nat.add_sub_cancel, getD_append_len] at h2
    exact hc h2

theorem accept_hit (l : Lexer) (pre : List Char) (c : Char)
    (rest valid : List Char) (hin : l.input = pre ++ c :: rest)
    (hpos : l.pos = pre.length) (hc : c ∈ valid) :
    ∃ co pc li, l.accept valid = (setJunk { l with pos := l.pos + 1 } co pc li 1, true) := by
  unfold accept
  rw [nextRune_at l pre c rest hin hpos]
  dsimp only
  rw [if_pos hc]
  obtain ⟨co, pc, li, h⟩ := nextState_at l pre c rest hin hpos
  exact ⟨co, pc, li, by rw [h]⟩

theorem accept_miss (l : Lexer) (pre : List Char) (c : Char)
    (rest valid : List Char) (hin : l.input = pre ++ c :: rest)
    (hpos : l.pos = pre.length) (hc : c ∉ valid) :
    ∃ co pc li w, l.accept valid = (setJunk l co pc li w, false) := by
  unfold accept
  rw [nextRune_at l pre c rest hin hpos]
  dsimp only
  rw [if_neg hc]
  obtain ⟨co, pc, li, h⟩ := nextState_at l pre c rest hin hpos
  rw [h]
  unfold backup setJunk
  obtain ⟨inp, ec, ers, li', co', pc', st, po, w', ptt, bs⟩ := l
  dsimp only
  rw [Nat.add_sub_cancel]
  split
  · exact ⟨pc, pc, li - 1, 1, by simp⟩
  · exact ⟨pc, pc, li, 1, by simp⟩

theorem accept_end (l : Lexer) (valid : List Char)
    (hpos : l.pos ≥ l.input.length) :
    ∃ co pc li w, l.accept valid = (setJunk l co pc li w, false) := by
  unfold accept
  rw [nextRune_ge l hpos]
  unfold nextState
  rw [if_pos hpos]
  unfold backup setJunk
  obtain ⟨inp, ec, ers, li, co, pc, st, po, w', ptt, bs⟩ := l
  dsimp only
  rw [if_neg (by rintro ⟨h, -⟩; cases h)]
  exact ⟨pc, pc, li, 0, by simp⟩

/-- Maximal-munch behaviour of `scanSignificand`: it consumes exactly the
run `ds` of digits below the base and stops at the first non-digit (or end
of input), leaving everything but the cursor bookkeeping unchanged. -/
theorem scanSignificandF_run (base : Nat) (hbase : base ≤ 16) :
    ∀ (ds : List Char) (fuel : Nat) (pre rest : List Char) (l : Lexer),
      l.input = pre ++ ds ++ rest → l.pos = pre.length →
      (∀ c ∈ ds, digitValue (some c) < base) →
      digitValue rest.head? ≥ base →
      ds.length < fuel →
      ∃ co pc li w, scanSignificandF fuel base l =
        some (setJunk { l with pos := l.pos + ds.length } co pc li w) := by
  intro ds
  induction ds with
  | nil =>
    intro fuel pre rest l hin hpos hds hrest hfuel
    obtain ⟨m, rfl⟩ : ∃ m, fuel = m + 1 := ⟨fuel - 1, by omega⟩
    rw [scanSignificandF]
    simp only [List.nil_append, List.append_nil] at hin
    cases rest with
    | nil =>
      have hge : l.pos ≥ l.input.length := by
        rw [hin, hpos]
        simp
      rw [nextRune_ge l hge]
      rw [if_neg (by simpa using hrest)]
      unfold nextState
      rw [if_pos hge]
      unfold backup setJunk
      obtain ⟨inp, ec, ers, li, co, pc, st, po, w', ptt, bs⟩ := l
      dsimp only
      rw [if_neg (by rintro ⟨h, -⟩; cases h)]
      exact ⟨pc, pc, li, 0, by simp⟩
    | cons c rest' =>
      rw [nextRune_at l pre c rest' hin hpos]
      rw [if_neg (by simpa using hrest)]
      obtain ⟨co, pc, li, h⟩ := nextState_at l pre c rest' hin hpos
      rw [h]
      unfold backup setJunk
      obtain ⟨inp, ec, ers, li', co', pc', st, po, w', ptt, bs⟩ := l
      dsimp only
      rw [Nat.add_sub_cancel]
      split
      · exact ⟨pc, pc, li - 1, 1, by simp⟩
      · exact ⟨pc, pc, li, 1, by simp⟩
  | cons d ds' ih =>
    intro fuel pre rest l hin hpos hds hrest hfuel
    obtain ⟨m, rfl⟩ : ∃ m, fuel = m + 1 := ⟨fuel - 1, by omega⟩
    rw [scanSignificandF]
    have hin' : l.input = pre ++ d :: (ds' ++ rest) := by simpa using hin
    rw [nextRune_at l pre d (ds' ++ rest) hin' hpos]
    rw [if_pos (hds d (List.mem_cons_self d ds'))]
    obtain ⟨co, pc, li, hns⟩ := nextState_at l pre d (ds' ++ rest) hin' hpos
    rw [hns]
    obtain ⟨co', pc', li', w', hres⟩ := ih m (pre ++ [d]) rest
      (setJunk { l with pos := l.pos + 1 } co pc li 1)
      (by simpa [setJunk] using hin)
      (by simp [setJunk, hpos])
      (fun c hc => hds c (List.mem_cons_of_mem d hc))
      hrest (by simpa using Nat.lt_of_succ_lt_succ hfuel)
    refine ⟨co', pc', li', w', ?_⟩
    rw [hres]
    cases l
    simp only [setJunk, Lexer.mk.injEq, Option.some.injEq, List.length_cons,
      and_true, true_and]
    omega

theorem octalErrCount_errorf_octal (l : Lexer) (s : String) :
    octalErrCount (l.errorf (.illegalOctalNumber s)) = octalErrCount l + 1 := by
  simp [octalErrCount, errorf, List.filter_append, isOctalErr]

theorem octalErrCount_setJunk (l : Lexer) (co pc li w : Nat) :
    octalErrCount (setJunk l co pc li w) = octalErrCount l := rfl

theorem digitValue_octal {x : Char} (h : x ∈ octalChars) :
    digitValue (some x) < 8 := by
  fin_cases h <;> decide

theorem digitValue_decimal {x : Char} (h : x ∈ decimalChars) :
    digitValue (some x) < 10 := by
  fin_cases h <;> decide

theorem octal_not_marker {x : Char} (h : x ∈ octalChars) :
    x ∉ (['x', 'X'] : List Char) := by
  fin_cases h <;> decide

theorem not_89_of_ge10 {c : Char} (h : digitValue (some c) ≥ 10) :
    c ∉ (['8', '9'] : List Char) := by
  intro hc
  fin_cases hc <;> revert h <;> decide

/-- Running `lexNumber` on a leading-zero literal: after the `backup`, the
`"."`-peek, `accept("0")`, the failing `accept("xX")` and the base-8
`scanSignificand` over the octal run `ds`, execution reaches the octal tail
at the position just past the run. -/
theorem lexNumberF_octal_entry (l : Lexer) (fuel : Nat)
    (pre ds rest : List Char)
    (hin : l.input = pre ++ '0' :: (ds ++ rest))
    (hpos : l.pos = pre.length + 1) (hw : l.runeWidth = 1)
    (hds : ∀ x ∈ ds, x ∈ octalChars)
    (hrest8 : digitValue rest.head? ≥ 8)
    (hrestx : rest.head? ≠ some 'x' ∧ rest.head? ≠ some 'X')
    (hfuel : ds.length < fuel) :
    ∃ co pc li w, lexNumberF fuel l =
      lexNumberOctalTailF fuel
        (setJunk { l with pos := pre.length + 1 + ds.length } co pc li w) := by
  unfold lexNumberF
  rw [backup_after_next l pre '0' (ds ++ rest) hin hpos hw (by decide)]
  dsimp only
  set l₁ := setJunk { l with pos := pre.length } l.prevCol l.prevCol l.line 1
    with hl₁
  have hin₁ : l₁.input = pre ++ '0' :: (ds ++ rest) := hin
  have hpos₁ : l₁.pos = pre.length := rfl
  rw [peekRune_at l₁ pre '0' (ds ++ rest) hin₁ hpos₁]
  rw [if_neg (by decide)]
  obtain ⟨co₂, pc₂, li₂, hacc0⟩ :=
    accept_hit l₁ pre '0' (ds ++ rest) ['0'] hin₁ hpos₁ (by decide)
  rw [hacc0]
  dsimp only
  set S₂ := setJunk { l₁ with pos := l₁.pos + 1 } co₂ pc₂ li₂ 1 with hS₂
  have hin₂ : S₂.input = (pre ++ ['0']) ++ (ds ++ rest) := by
    show l.input = _
    rw [hin]
    simp
  have hpos₂ : S₂.pos = (pre ++ ['0']).length := by
    show pre.length + 1 = _
    simp
  have hxX : ∃ co pc li w,
      S₂.accept ['x', 'X'] = (setJunk S₂ co pc li w, false) := by
    cases ds with
    | cons dh dt =>
      exact accept_miss S₂ (pre ++ ['0']) dh (dt ++ rest) ['x', 'X']
        (by rw [hin₂]; simp) hpos₂
        (octal_not_marker (hds dh (List.mem_cons_self dh dt)))
    | nil =>
      cases rest with
      | nil =>
        refine accept_end S₂ ['x', 'X'] ?_
        rw [hin₂, hpos₂]
        simp
      | cons rh rt =>
        refine accept_miss S₂ (pre ++ ['0']) rh rt ['x', 'X']
          (by rw [hin₂]; simp) hpos₂ ?_
        intro hmem
        simp only [List.mem_cons, List.not_mem_nil, or_false] at hmem
        rcases hmem with h | h
        · exact hrestx.1 (by simp [h])
        · exact hrestx.2 (by simp [h])
  obtain ⟨co₃, pc₃, li₃, w₃, hxXeq⟩ := hxX
  rw [hxXeq]
  dsimp only
  obtain ⟨co₄, pc₄, li₄, w₄, hmunch⟩ :=
    scanSignificandF_run 8 (by omega) ds fuel (pre ++ ['0']) rest
      (setJunk S₂ co₃ pc₃ li₃ w₃)
      (by rw [show (setJunk S₂ co₃ pc₃ li₃ w₃).input = S₂.input from rfl, hin₂]
          simp [List.append_assoc])
      hpos₂ (fun c hc => digitValue_octal (hds c hc)) hrest8 hfuel
  rw [hmunch]
  exact ⟨co₄, pc₄, li₄, w₄, rfl⟩

/-- Octal tail, error side: when an `8`/`9` digit follows the scanned run,
`accept("89")` fires, the decimal continuation is absorbed, and the
"illegal octal number" error is reported; with no float marker after, an
`INT` token is still emitted. -/
theorem lexNumberOctalTailF_err (S : Lexer) (fuel : Nat)
    (pre2 dec rest₂ : List Char) (c : Char)
    (hin : S.input = pre2 ++ c :: (dec ++ rest₂))
    (hpos : S.pos = pre2.length)
    (hc : c ∈ (['8', '9'] : List Char))
    (hdec : ∀ x ∈ dec, x ∈ decimalChars)
    (hrest : digitValue rest₂.head? ≥ 10)
    (hdot : rest₂.head? ≠ some '.' ∧ rest₂.head? ≠ some 'e' ∧
      rest₂.head? ≠ some 'E')
    (hfuel : dec.length < fuel) :
    ∃ l' t, lexNumberOctalTailF fuel S = some (l', t) ∧
      octalErrCount l' = octalErrCount S + 1 ∧ t.typ = .INT := by
  unfold lexNumberOctalTailF
  obtain ⟨co, pc, li, hacc⟩ :=
    accept_hit S pre2 c (dec ++ rest₂) ['8', '9'] hin hpos hc
  rw [hacc]
  dsimp only
  obtain ⟨co₂, pc₂, li₂, w₂, hmunch⟩ :=
    scanSignificandF_run 10 (by omega) dec fuel (pre2 ++ [c]) rest₂
      (setJunk { S with pos := S.pos + 1 } co pc li 1)
      (by show S.input = _; rw [hin]; simp)
      (by show S.pos + 1 = _; rw [hpos]; simp)
      (fun x hx => digitValue_decimal (hdec x hx)) hrest hfuel
  rw [hmunch]
  simp only [Option.bind_eq_bind, Option.some_bind]
  set S₃ := setJunk
    { setJunk { S with pos := S.pos + 1 } co pc li 1 with
      pos := (setJunk { S with pos := S.pos + 1 } co pc li 1).pos + dec.length }
    co₂ pc₂ li₂ w₂ with hS₃
  set S₄ := S₃.errorf (.illegalOctalNumber S₃.pendingText) with hS₄
  have hpos₄ : S₄.pos = pre2.length + 1 + dec.length := by
    show S.pos + 1 + dec.length = _
    rw [hpos]
  have hin₄ : S₄.input = S.input := rfl
  have hpeek : (S₄.peekRune = some '.' ∨ S₄.peekRune = some 'e' ∨
      S₄.peekRune = some 'E') = False := by
    cases hr : rest₂ with
    | nil =>
      have : S₄.peekRune = none := by
        refine peekRune_end S₄ ?_
        rw [hpos₄, hin₄, hin, hr]
        simp
        omega
      simp [this]
    | cons rh rt =>
      have : S₄.peekRune = some rh := by
        refine peekRune_at S₄ (pre2 ++ c :: dec) rh rt ?_ ?_
        · rw [hin₄, hin, hr]
          simp
        · rw [hpos₄]
          simp
          omega
      rw [hr] at hdot
      simp only [List.head?_cons] at hdot
      simp only [this, Option.some.injEq, eq_false_intro]
      simp only [eq_iff_iff, iff_false]
      push_neg
      exact ⟨fun h => hdot.1 (by rw [h]), fun h => hdot.2.1 (by rw [h]),
        fun h => hdot.2.2 (by rw [h])⟩
  rw [if_neg (by rw [hpeek]; exact id)]
  refine ⟨(S₄.nextToken .INT).1, (S₄.nextToken .INT).2, rfl, ?_, rfl⟩
  show octalErrCount S₄ = _
  rw [hS₄, octalErrCount_errorf_octal]
  rfl

/-- Octal tail, no-error side: when the rune after the octal run is neither
a digit nor a float marker (nor `8`/`9`), no error is reported and an `INT`
token is emitted. -/
theorem lexNumberOctalTailF_ok (S : Lexer) (fuel : Nat)
    (pre2 rest : List Char)
    (hin : S.input = pre2 ++ rest) (hpos : S.pos = pre2.length)
    (hrest : digitValue rest.head? ≥ 10)
    (hdot : rest.head? ≠ some '.' ∧ rest.head? ≠ some 'e' ∧
      rest.head? ≠ some 'E') :
    ∃ l' t, lexNumberOctalTailF fuel S = some (l', t) ∧
      octalErrCount l' = octalErrCount S ∧ t.typ = .INT := by
  unfold lexNumberOctalTailF
  have hacc : ∃ co pc li w,
      S.accept ['8', '9'] = (setJunk S co pc li w, false) := by
    cases hr : rest with
    | nil =>
      refine accept_end S ['8', '9'] ?_
      rw [hin, hpos, hr]
      simp
    | cons rh rt =>
      refine accept_miss S pre2 rh rt ['8', '9'] (by rw [hin, hr]) hpos ?_
      refine not_89_of_ge10 ?_
      rw [hr] at hrest
      simpa using hrest
  obtain ⟨co, pc, li, w, hacceq⟩ := hacc
  rw [hacceq]
  simp only [Option.bind_eq_bind, Option.some_bind]
  set S₁ := setJunk S co pc li w with hS₁
  have hpeek : (S₁.peekRune = some '.' ∨ S₁.peekRune = some 'e' ∨
      S₁.peekRune = some 'E') = False := by
    cases hr : rest with
    | nil =>
      have : S₁.peekRune = none := by
        refine peekRune_end S₁ ?_
        show S.pos ≥ S.input.length
        rw [hin, hpos, hr]
        simp
      simp [this]
    | cons rh rt =>
      have : S₁.peekRune = some rh := peekRune_at S₁ pre2 rh rt
        (by show S.input = _; rw [hin, hr]) hpos
      rw [hr] at hdot
      simp only [List.head?_cons] at hdot
      simp only [this, eq_iff_iff, iff_false]
      push_neg
      exact ⟨fun h => hdot.1 (by rw [h]), fun h => hdot.2.1 (by rw [h]),
        fun h => hdot.2.2 (by rw [h])⟩
  rw [if_neg (by rw [hpeek]; exact id)]
  exact ⟨(S₁.nextToken .INT).1, (S₁.nextToken .INT).2, rfl, rfl, rfl⟩

/-- Octal tail, float fall-through: a `.`-digit continuation after a clean
octal run reaches `FRACTION` and emits a `FLOAT` token with no error. -/
theorem lexNumberOctalTailF_float (S : Lexer) (fuel : Nat)
    (pre2 : List Char) (d : Char)
    (hin : S.input = pre2 ++ ['.', d]) (hpos : S.pos = pre2.length)
    (hd : d ∈ decimalChars) (hfuel : 1 < fuel) :
    ∃ l' t, lexNumberOctalTailF fuel S = some (l', t) ∧
      octalErrCount l' = octalErrCount S ∧ t.typ = .FLOAT := by
  unfold lexNumberOctalTailF
  obtain ⟨co, pc, li, w, hacceq⟩ :=
    accept_miss S pre2 '.' [d] ['8', '9'] (by rw [hin]) hpos (by decide)
  rw [hacceq]
  simp only [Option.bind_eq_bind, Option.some_bind]
  set S₁ := setJunk S co pc li w with hS₁
  have hpk : S₁.peekRune = some '.' :=
    peekRune_at S₁ pre2 '.' [d] (by show S.input = _; rw [hin]) hpos
  rw [if_pos (Or.inl hpk)]
  unfold lexNumberFractionF
  obtain ⟨co₂, pc₂, li₂, hdotacc⟩ :=
    accept_hit S₁ pre2 '.' [d] ['.'] (by show S.input = _; rw [hin]) hpos
      (by decide)
  rw [hdotacc]
  dsimp only
  set S₂ := setJunk { S₁ with pos := S₁.pos + 1 } co₂ pc₂ li₂ 1 with hS₂
  have hpk₂ : S₂.peekRune = some d := by
    refine peekRune_at S₂ (pre2 ++ ['.']) d [] ?_ ?_
    · show S.input = _
      rw [hin]
      simp
    · show S.pos + 1 = _
      rw [hpos]
      simp
  have hdig : isDigit S₂.peekRune = true := by
    rw [hpk₂]
    fin_cases hd <;> decide
  rw [if_pos hdig]
  obtain ⟨co₃, pc₃, li₃, w₃, hmunch⟩ :=
    scanSignificandF_run 10 (by omega) [d] fuel (pre2 ++ ['.']) [] S₂
      (by show S.input = _; rw [hin]; simp)
      (by show S.pos + 1 = _; rw [hpos]; simp)
      (fun x hx => by
        simp only [List.mem_singleton] at hx
        exact hx ▸ digitValue_decimal hd)
      (by decide) (by simpa using hfuel)
  rw [hmunch]
  simp only [Option.bind_eq_bind, Option.some_bind]
  set S₃ := setJunk { S₂ with pos := S₂.pos + [d].length } co₃ pc₃ li₃ w₃
    with hS₃
  obtain ⟨co₄, pc₄, li₄, w₄, heE⟩ := accept_end S₃ ['e', 'E'] (by
    show S.pos + 1 + [d].length ≥ S.input.length
    rw [hin, hpos]
    simp)
  rw [heE]
  dsimp only
  exact ⟨_, _, rfl, rfl, rfl⟩

end Lexer

/-- C8, amended.  For a numeric literal starting `0` (not `0x`/`0X`) whose
octal-digit run is `ds`: (a) when an `8` or `9` immediately follows the
run, the "illegal octal number" error is reported regardless of what comes
after the offending digits — a following `.`/`e`/`E` does not suppress it
(see the counterexample `"08.5"`, which errors and still emits `FLOAT`);
(b) when the rune after the run is neither a digit nor `.`/`e`/`E`/`x`/`X`,
no such error is reported and an `INT` token is emitted; (c) when a
decimal point and digit follow a clean run, no error is reported and
scanning falls through to fraction scanning, emitting a `FLOAT` token. -/
theorem went_C8_amended :
    (∀ (l : Lexer) (fuel : Nat) (pre ds dec rest₂ : List Char) (c : Char),
      l.input = pre ++ '0' :: (ds ++ (c :: (dec ++ rest₂))) →
      l.pos = pre.length + 1 → l.runeWidth = 1 →
      (∀ x ∈ ds, x ∈ octalChars) → c ∈ (['8', '9'] : List Char) →
      (∀ x ∈ dec, x ∈ decimalChars) →
      digitValue rest₂.head? ≥ 10 →
      rest₂.head? ≠ some '.' → rest₂.head? ≠ some 'e' →
      rest₂.head? ≠ some 'E' →
      ds.length < fuel → dec.length < fuel →
      ∃ l' t, Lexer.lexNumberF fuel l = some (l', t) ∧
        octalErrCount l' = octalErrCount l + 1 ∧ t.typ = .INT) ∧
    (∀ (l : Lexer) (fuel : Nat) (pre ds rest : List Char),
      l.input = pre ++ '0' :: (ds ++ rest) →
      l.pos = pre.length + 1 → l.runeWidth = 1 →
      (∀ x ∈ ds, x ∈ octalChars) →
      digitValue rest.head? ≥ 10 →
      rest.head? ≠ some 'x' → rest.head? ≠ some 'X' →
      rest.head? ≠ some '.' → rest.head? ≠ some 'e' →
      rest.head? ≠ some 'E' →
      ds.length < fuel →
      ∃ l' t, Lexer.lexNumberF fuel l = some (l', t) ∧
        octalErrCount l' = octalErrCount l ∧ t.typ = .INT) ∧
    (∀ (l : Lexer) (fuel : Nat) (pre ds : List Char) (d : Char),
      l.input = pre ++ '0' :: (ds ++ ['.', d]) →
      l.pos = pre.length + 1 → l.runeWidth = 1 →
      (∀ x ∈ ds, x ∈ octalChars) → d ∈ decimalChars →
      ds.length < fuel → 1 < fuel →
      ∃ l' t, Lexer.lexNumberF fuel l = some (l', t) ∧
        octalErrCount l' = octalErrCount l ∧ t.typ = .FLOAT) := by
  refine ⟨?_, ?_, ?_⟩
  · intro l fuel pre ds dec rest₂ c hin hpos hw hds hc hdec hrest hd1 hd2 hd3
      hfds hfdec
    obtain ⟨co, pc, li, w, hentry⟩ :=
      Lexer.lexNumberF_octal_entry l fuel pre ds (c :: (dec ++ rest₂)) hin
        hpos hw hds
        (by simp only [List.head?_cons]; fin_cases hc <;> decide)
        (by constructor <;> (simp only [List.head?_cons, Option.some.injEq]
                             fin_cases hc <;> decide))
        hfds
    rw [hentry]
    obtain ⟨l', t, htail, hcount, htyp⟩ :=
      Lexer.lexNumberOctalTailF_err
        (Lexer.setJunk { l with pos := pre.length + 1 + ds.length } co pc li w)
        fuel (pre ++ '0' :: ds) dec rest₂ c
        (by show l.input = _; rw [hin]; simp)
        (by show pre.length + 1 + ds.length = _; simp; omega)
        hc hdec hrest ⟨hd1, hd2, hd3⟩ hfdec
    exact ⟨l', t, htail, by rw [hcount]; rfl, htyp⟩
  · intro l fuel pre ds rest hin hpos hw hds hrest hx hX hd1 hd2 hd3 hfds
    obtain ⟨co, pc, li, w, hentry⟩ :=
      Lexer.lexNumberF_octal_entry l fuel pre ds rest hin hpos hw hds
        (by omega) ⟨hx, hX⟩ hfds
    rw [hentry]
    obtain ⟨l', t, htail, hcount, htyp⟩ :=
      Lexer.lexNumberOctalTailF_ok
        (Lexer.setJunk { l with pos := pre.length + 1 + ds.length } co pc li w)
        fuel (pre ++ '0' :: ds) rest
        (by show l.input = _; rw [hin]; simp)
        (by show pre.length + 1 + ds.length = _; simp; omega)
        hrest ⟨hd1, hd2, hd3⟩
    exact ⟨l', t, htail, by rw [hcount]; rfl, htyp⟩
  · intro l fuel pre ds d hin hpos hw hds hd hfds hf1
    obtain ⟨co, pc, li, w, hentry⟩ :=
      Lexer.lexNumberF_octal_entry l fuel pre ds ['.', d] hin hpos hw hds
        (by simp only [List.head?_cons]; decide)
        (by constructor <;> (simp only [List.head?_cons]; decide)) hfds
    rw [hentry]
    obtain ⟨l', t, htail, hcount, htyp⟩ :=
      Lexer.lexNumberOctalTailF_float
        (Lexer.setJunk { l with pos := pre.length + 1 + ds.length } co pc li w)
        fuel (pre ++ '0' :: ds) d
        (by show l.input = _; rw [hin]; simp)
        (by show pre.length + 1 + ds.length = _; simp; omega)
        hd hf1
    exact ⟨l', t, htail, by rw [hcount]; rfl, htyp⟩

/-- Witness for the amended C8 on the inputs `08`, `07` and `0.5` (the
number scanner entered with the leading `0` just consumed). -/
theorem went_C8_amended_witness :
    (∃ l' t, Lexer.lexNumberF 1 { mkLexer "08" with pos := 1, runeWidth := 1 } =
        some (l', t) ∧
      octalErrCount l' =
        octalErrCount { mkLexer "08" with pos := 1, runeWidth := 1 } + 1 ∧
      t.typ = .INT) ∧
    (∃ l' t, Lexer.lexNumberF 2 { mkLexer "07" with pos := 1, runeWidth := 1 } =
        some (l', t) ∧
      octalErrCount l' =
        octalErrCount { mkLexer "07" with pos := 1, runeWidth := 1 } ∧
      t.typ = .INT) ∧
    (∃ l' t, Lexer.lexNumberF 2 { mkLexer "0.5" with pos := 1, runeWidth := 1 } =
        some (l', t) ∧
      octalErrCount l' =
        octalErrCount { mkLexer "0.5" with pos := 1, runeWidth := 1 } ∧
      t.typ = .FLOAT) :=
  ⟨went_C8_amended.1 _ 1 [] [] [] [] '8' (by decide) rfl rfl (by decide)
      (by decide) (by decide) (by decide) (by decide) (by decide) (by decide)
      (by decide) (by decide),
   went_C8_amended.2.1 _ 2 [] ['7'] [] (by decide) rfl rfl (by decide)
      (by decide) (by decide) (by decide) (by decide) (by decide) (by decide)
      (by decide),
   went_C8_amended.2.2 _ 2 [] [] '5' (by decide) rfl rfl (by decide)
      (by decide) (by decide) (by decide)⟩

/-- C10, as the code actually behaves (refuting the claim): on the input
`"'abc"`, whose quoted string is still open at end of input, `Scan` never
returns — for every fuel bound the scanning loop fails to finish, because
`lexQuotedString`'s loop has no `eof` case and keeps reading the `eof`
sentinel forever; likewise for the unterminated raw string `"\x60abc"`,
whose loop reports "Unterminated raw string" at `eof` but does not exit. -/
theorem went_C10_code_behaviour :
    (∀ fuel, Lexer.ScanF fuel (mkLexer "'abc") = none) ∧
    (∀ fuel, Lexer.ScanF fuel (mkLexer "\x60abc") = none) := by
  constructor
  · intro fuel
    cases fuel with
    | zero => rfl
    | succ n =>
      have key : Lexer.ScanF (n + 1) (mkLexer "'abc") =
          Lexer.lexQuotedStringF (n + 1)
            ((mkLexer "'abc").nextState.backup.ignore.nextState) := rfl
      rw [key]
      unfold Lexer.lexQuotedStringF
      rw [Lexer.lexQuotedStringLoopF_none (n + 1) _ (by decide)]
      rfl
  · intro fuel
    cases fuel with
    | zero => rfl
    | succ n =>
      have key : Lexer.ScanF (n + 1) (mkLexer "\x60abc") =
          Lexer.lexRawStringF (n + 1)
            ((mkLexer "\x60abc").nextState.backup.ignore.nextState) := rfl
      rw [key]
      unfold Lexer.lexRawStringF
      dsimp only
      rw [Lexer.lexRawStringLoopF_none (n + 1) _ _ _ (by decide)]
      rfl

/-- C2.  Lexing `"1 + 2 * 3"` yields the shown token stream, and parsing
that stream yields the tree `add(1, mul(2, 3))` — multiplication binds
tighter than addition — and in particular not `mul(add(1, 2), 3)`; for
`"-2 * 3"` the parser yields `mul(minus(2), 3)` — unary minus binds
tighter than multiplication.  (Trees are compared through the
repository-style parenthesised rendering `parseRender`.) -/
theorem went_C2 :
    lexTokens "1 + 2 * 3" = some [⟨.INT, "1", 1, 1⟩, ⟨.PLUS, "+", 1, 3⟩,
      ⟨.INT, "2", 1, 5⟩, ⟨.MULT, "*", 1, 7⟩, ⟨.INT, "3", 1, 8⟩,
      ⟨.EOF, "", 1, 8⟩] ∧
    parseRender 16 [⟨.INT, "1", 1, 1⟩, ⟨.PLUS, "+", 1, 3⟩, ⟨.INT, "2", 1, 5⟩,
      ⟨.MULT, "*", 1, 7⟩, ⟨.INT, "3", 1, 8⟩, ⟨.EOF, "", 1, 8⟩] =
      some "(+ 1 (* 2 3))" ∧
    some "(+ 1 (* 2 3))" ≠ some "(* (+ 1 2) 3)" ∧
    lexTokens "-2 * 3" = some [⟨.MINUS, "-", 1, 1⟩, ⟨.INT, "2", 1, 2⟩,
      ⟨.MULT, "*", 1, 4⟩, ⟨.INT, "3", 1, 5⟩, ⟨.EOF, "", 1, 5⟩] ∧
    parseRender 16 [⟨.MINUS, "-", 1, 1⟩, ⟨.INT, "2", 1, 2⟩,
      ⟨.MULT, "*", 1, 4⟩, ⟨.INT, "3", 1, 5⟩, ⟨.EOF, "", 1, 5⟩] =
      some "(* (- 2) 3)" :=
  ⟨by decide, by decide, by decide, by decide, by decide⟩

/-- C3, as the code actually behaves (refuting the claim): parsing the
token stream of `"a && b && c"` builds the RIGHT-nested tree
`and(a, and(b, c))`, not the left-associative `and(and(a, b), c)` the
claim describes.  The `&&` level (`andEval`) takes its right operand by
recursing into `andEval` itself (`newBinExpr(node, p.andEval(), tkn)`),
contradicting its own grammar comment `andEval: notEval ("&&" notEval)*`
and the earlier revision of the same function, which both use `notEval`
operands; `||` (`orEval`), shown alongside on `"a || b || c"`, does
recurse into the tighter level (`andEval`) and left-associates. -/
theorem went_C3_code_behaviour :
    lexTokens "a && b && c" = some [⟨.NAME, "a", 1, 1⟩,
      ⟨.LOGICALAND, "&&", 1, 4⟩, ⟨.NAME, "b", 1, 6⟩,
      ⟨.LOGICALAND, "&&", 1, 9⟩, ⟨.NAME, "c", 1, 10⟩, ⟨.EOF, "", 1, 10⟩] ∧
    parseRender 16 [⟨.NAME, "a", 1, 1⟩, ⟨.LOGICALAND, "&&", 1, 4⟩,
      ⟨.NAME, "b", 1, 6⟩, ⟨.LOGICALAND, "&&", 1, 9⟩, ⟨.NAME, "c", 1, 10⟩,
      ⟨.EOF, "", 1, 10⟩] = some "(&& a (&& b c))" ∧
    some "(&& a (&& b c))" ≠ some "(&& (&& a b) c)" ∧
    lexTokens "a || b || c" = some [⟨.NAME, "a", 1, 1⟩,
      ⟨.LOGICALOR, "||", 1, 4⟩, ⟨.NAME, "b", 1, 6⟩,
      ⟨.LOGICALOR, "||", 1, 9⟩, ⟨.NAME, "c", 1, 10⟩, ⟨.EOF, "", 1, 10⟩] ∧
    parseRender 16 [⟨.NAME, "a", 1, 1⟩, ⟨.LOGICALOR, "||", 1, 4⟩,
      ⟨.NAME, "b", 1, 6⟩, ⟨.LOGICALOR, "||", 1, 9⟩, ⟨.NAME, "c", 1, 10⟩,
      ⟨.EOF, "", 1, 10⟩] = some "(|| (|| a b) c)" :=
  ⟨by decide, by decide, by decide, by decide, by decide⟩

/-- Witness for the amended C6 at a concrete end-of-input state. -/
theorem went_C6_amended_witness :
    (mkLexer "").pos = (mkLexer "").input.length ∧
    (∃ l' t, Lexer.ScanF 5 (mkLexer "") = some (l', t) ∧ t.typ = .EOF ∧
      l'.input = (mkLexer "").input ∧ l'.pos = l'.input.length ∧
      l'.errorCount = (mkLexer "").errorCount +
        (if (mkLexer "").bracketStack = [] then 0 else 1) ∧
      l'.bracketStack = (mkLexer "").bracketStack.dropLast) :=
  ⟨rfl, went_C6_amended (mkLexer "") 4 rfl⟩

/-- C4 concerns zero division; the live `runtime` interpreter raises NO
zero-division error.  `VisitBinExpr`'s `DIV` case (its `TODO: throw error
here for ZeroDivisionError` notwithstanding) returns `leftV / rightV`
directly, so `5 / 0` — both `INT` literals, which `tokenToValue` converts
to `float64` (hence no int/float distinction exists at runtime either) —
evaluates to `+Inf` with no error; and the operator switch has no `MOD`
case at all, so `5 % 0` falls through to the trailing `return nil`. -/
theorem went_C4_code_behaviour :
    tokenToValue ⟨.INT, "5", 1, 1⟩ = some (.vnum (.finite 5)) ∧
    tokenToValue ⟨.INT, "0", 1, 5⟩ = some (.vnum (.finite 0)) ∧
    ivisit (.binE (.basicLit (.vnum (.finite 5)) ⟨.INT, "5", 1, 1⟩)
      ⟨.DIV, "/", 1, 3⟩
      (.basicLit (.vnum (.finite 0)) ⟨.INT, "0", 1, 5⟩)) = .ok (.vnum .posInf) ∧
    ivisit (.binE (.basicLit (.vnum (.finite 5)) ⟨.INT, "5", 1, 1⟩)
      ⟨.MOD, "%", 1, 3⟩
      (.basicLit (.vnum (.finite 0)) ⟨.INT, "0", 1, 5⟩)) = .ok .vnil :=
  ⟨by simp [tokenToValue, goParseFloat, decDigitsVal, goParseDigits, digitValue],
   by simp [tokenToValue, goParseFloat, decDigitsVal, goParseDigits, digitValue],
   rfl, rfl⟩

/-- C5 claims `&&`/`||` short-circuit; the live `runtime` interpreter's
`VisitBinExpr` evaluates BOTH operands before inspecting the operator and
has no `LOGICALAND`/`LOGICALOR` cases.  So with a right operand `- "a"`
whose evaluation alone raises the unary type error, `false && (- "a")`
propagates that error instead of returning `false` (and `true || (- "a")`
likewise); and even with a benign right operand, `false && true` returns
`nil` via the trailing `return nil`, not `false`. -/
theorem went_C5_code_behaviour :
    ivisit (.unE ⟨.MINUS, "-", 1, 10⟩ (.basicLit (.vstr "a") ⟨.STR, "a", 1, 12⟩)) =
      .error { msg := "operandmust be a number", line := 1, col := 10 } ∧
    ivisit (.binE (.basicLit (.vbool false) ⟨.FALSE, "false", 1, 1⟩)
      ⟨.LOGICALAND, "&&", 1, 7⟩
      (.unE ⟨.MINUS, "-", 1, 10⟩ (.basicLit (.vstr "a") ⟨.STR, "a", 1, 12⟩))) =
      .error { msg := "operandmust be a number", line := 1, col := 10 } ∧
    ivisit (.binE (.basicLit (.vbool true) ⟨.TRUE, "true", 1, 1⟩)
      ⟨.LOGICALOR, "||", 1, 6⟩
      (.unE ⟨.MINUS, "-", 1, 9⟩ (.basicLit (.vstr "a") ⟨.STR, "a", 1, 11⟩))) =
      .error { msg := "operandmust be a number", line := 1, col := 9 } ∧
    ivisit (.binE (.basicLit (.vbool false) ⟨.FALSE, "false", 1, 1⟩)
      ⟨.LOGICALAND, "&&", 1, 7⟩
      (.basicLit (.vbool true) ⟨.TRUE, "true", 1, 10⟩)) = .ok .vnil :=
  ⟨rfl, rfl, rfl, rfl⟩

/-- C9: for every pair of runtime values and every `orEq` flag, `Gr`
returns an error exactly when `Sm` with the negated flag does, and on
success returns the boolean negation of that `Sm` result — every `Gr`
method in `lang/wenttype.go` is the same thin wrapper around `Sm`. -/
theorem went_C9 (a b : WType) (orEq : Bool) :
    ((∃ e, wGr a b orEq = .error e) ↔ (∃ e2, wSm a b (!orEq) = .error e2)) ∧
    (∀ s, wSm a b (!orEq) = .ok s → wGr a b orEq = .ok (!s)) := by
  have key : wGr a b orEq = grImpl a b orEq := by cases a <;> rfl
  rw [key]
  cases h : wSm a b (!orEq) <;> simp [grImpl, h]

/-- Witness for C9: comparing the empty list to itself with `Gr(orEq :=
false)` calls `Sm(orEq := true)`, which yields `0 ≤ 0 = true`, so `Gr`
returns `false`. -/
theorem went_C9_witness :
    wGr (.wlist []) (.wlist []) false = .ok (!true) :=
  (went_C9 (.wlist []) (.wlist []) false).2 true (by simp [wSm, wSmList])

end Went
